import Mathlib

/-!
Shallow embedding of the BA_Dedup2 entity-resolution and versioned-merge
engine, translated from the Python sources:
  utils/helpers.py       (normalization, name parsing, entity typing)
  agents/matching_agent.py (pair scoring with safety gates, clustering)
  utils/smart_blocking.py (bounded missing-data fallback)
  utils/versioning.py    (merge/undo ledger)
Float scores are modelled as exact rationals; the external fuzzy string
comparators (thefuzz) are modelled as an abstract parameter.
-/

set_option maxHeartbeats 1600000

namespace BADedup

/-! ### Python string primitives

Character-list implementations of the Python string operations the
helpers use, so that everything reduces in the kernel. -/

/-- Python regex whitespace class. -/
def isWsChar (c : Char) : Bool :=
  c == ' ' || c == '\t' || c == '\n' || c == '\r' || c == '\x0b' || c == '\x0c'

/-- Python str.strip(). -/
def stripStr (s : String) : String :=
  String.mk (((s.data.dropWhile isWsChar).reverse.dropWhile isWsChar).reverse)

/-- Python str.lower(). -/
def toLowerStr (s : String) : String :=
  String.mk (s.data.map Char.toLower)

/-- Replace each run of whitespace by a single space; the state records
whether the previous character was whitespace. -/
def collapseWsAux : Bool → List Char → List Char
  | _, [] => []
  | prevWs, c :: rest =>
    if isWsChar c then
      if prevWs then collapseWsAux true rest
      else ' ' :: collapseWsAux true rest
    else c :: collapseWsAux false rest

/-- Python str.split() with no argument: split on whitespace runs,
dropping empty pieces. -/
def pySplitAux : List Char → List Char → List String
  | [], acc => if acc.isEmpty then [] else [String.mk acc.reverse]
  | c :: rest, acc =>
    if isWsChar c then
      if acc.isEmpty then pySplitAux rest []
      else String.mk acc.reverse :: pySplitAux rest []
    else pySplitAux rest (c :: acc)

def pySplit (s : String) : List String := pySplitAux s.data []

/-- Whether the second list occurs at the head of the first. -/
def leadsWith : List Char → List Char → Bool
  | [], _ => true
  | _ :: _, [] => false
  | a :: as, b :: bs => a == b && leadsWith as bs

/-- Substring containment on character lists. -/
def containsSub : List Char → List Char → Bool
  | [], needle => needle.isEmpty
  | c :: t, needle => leadsWith needle (c :: t) || containsSub t needle

/-- Python `needle in hay` on strings. -/
def pyContains (hay needle : String) : Bool := containsSub hay.data needle.data

/-- Python str.replace(c, ""): remove every occurrence of one character. -/
def removeAllChar (s : String) (c : Char) : String :=
  String.mk (s.data.filter (fun d => d ≠ c))

/-- utils/helpers.py normalize_string. -/
def normalize_string (text : String) (lowercase : Bool := true)
    (remove_extra_spaces : Bool := true) : String :=
  let t := stripStr text
  let t := if remove_extra_spaces then String.mk (collapseWsAux false t.data) else t
  if lowercase then toLowerStr t else t

/-! ### Fixed tables from utils/helpers.py -/

def NICKNAME_MAP : List (String × String) :=
  [("tom", "thomas"), ("tommy", "thomas"), ("bill", "william"),
   ("billy", "william"), ("will", "william"), ("mike", "michael"),
   ("mikey", "michael"), ("tina", "christina"), ("chris", "christina"),
   ("christi", "christina"), ("bob", "robert"), ("bobby", "robert"),
   ("rob", "robert"), ("robby", "robert"), ("dick", "richard"),
   ("rick", "richard"), ("ricky", "richard"), ("rich", "richard"),
   ("jim", "james"), ("jimmy", "james"), ("jamie", "james"),
   ("dan", "daniel"), ("danny", "daniel"), ("dave", "david"),
   ("davey", "david"), ("joe", "joseph"), ("joey", "joseph"),
   ("beth", "elizabeth"), ("liz", "elizabeth"), ("lizzy", "elizabeth"),
   ("betty", "elizabeth"), ("jen", "jennifer"), ("jenny", "jennifer"),
   ("jenn", "jennifer"), ("matt", "matthew"), ("matty", "matthew"),
   ("andy", "andrew"), ("drew", "andrew"), ("tony", "anthony"),
   ("sue", "susan"), ("susie", "susan"), ("suzy", "susan")]

def SUFFIX_VARIATIONS : List (String × String) :=
  [("junior", "jr"), ("jr.", "jr"), ("jr", "jr"),
   ("senior", "sr"), ("sr.", "sr"), ("sr", "sr"),
   ("ii", "2"), ("2nd", "2"), ("second", "2"),
   ("iii", "3"), ("3rd", "3"), ("third", "3"),
   ("iv", "4"), ("4th", "4"), ("fourth", "4"),
   ("v", "5"), ("5th", "5"), ("fifth", "5"),
   ("esq", "esq"), ("esq.", "esq"), ("esquire", "esq"),
   ("md", "md"), ("md.", "md"), ("phd", "phd"), ("phd.", "phd"),
   ("do", "do"), ("do.", "do"), ("dds", "dds"), ("dds.", "dds"),
   ("jd", "jd"), ("jd.", "jd")]

def TITLES : List String :=
  ["dr", "dr.", "doctor", "mr", "mr.", "mister", "mrs", "mrs.", "missus",
   "ms", "ms.", "miss", "prof", "prof.", "professor", "rev", "rev.",
   "reverend", "hon", "hon.", "honorable", "capt", "capt.", "captain",
   "lt", "lt.", "lieutenant", "sgt", "sgt.", "sergeant", "col", "col.",
   "colonel", "gen", "gen.", "general"]

def trust_indicators : List String :=
  ["trust", "trustee", "revocable trust", "irrevocable trust",
   "living trust", "family trust", "estate of", "estate",
   "testamentary trust", "grantor trust"]

def department_indicators : List String :=
  ["dept", "department", "division", "unit", "section",
   "radiology", "cardiology", "oncology", "emergency",
   "billing", "accounts payable", "accounts receivable",
   "hr", "human resources", "it dept", "laboratory",
   "pathology", "surgery", "anesthesiology", "pediatrics",
   "neurology", "orthopedics", "dermatology"]

def business_indicators : List String :=
  ["llc", "inc", "inc.", "incorporated", "corp", "corp.",
   "corporation", "ltd", "ltd.", "limited", "co", "co.",
   "company", "partnership", "lp", "l.p.", "llp", "l.l.p.",
   "pa", "p.a.", "pc", "p.c.", "pllc", "p.l.l.c.",
   "plc", "group", "associates", "partners"]

/-! ### utils/helpers.py name functions -/

/-- utils/helpers.py normalize_suffix. -/
def normalize_suffix (suffix : String) : String :=
  if suffix = "" then ""
  else
    let clean := removeAllChar (stripStr (toLowerStr suffix)) '.'
    (SUFFIX_VARIATIONS.lookup clean).getD clean

/-- Strip dots and commas from a lowercased word, as remove_title and
parse_name do before comparing against the fixed tables. -/
def cleanTableWord (w : String) : String :=
  removeAllChar (removeAllChar (toLowerStr w) '.') ','

/-- utils/helpers.py remove_title: returns (name_without_title, title). -/
def remove_title (name : String) : String × String :=
  if name = "" then ("", "")
  else
    let name_str := stripStr name
    let words := pySplit name_str
    match words with
    | [] => (name_str, "")
    | w0 :: rest =>
      if TITLES.contains (cleanTableWord w0) then
        (String.intercalate " " rest, w0)
      else if words.length > 1 then
        if TITLES.contains (cleanTableWord (words.getLastD "")) then
          (String.intercalate " " words.dropLast, words.getLastD "")
        else (name_str, "")
      else (name_str, "")

structure ParsedName where
  first : String
  middle : String
  last : String
  suffix : String
  title : String
deriving DecidableEq

/-- utils/helpers.py parse_name. -/
def parse_name (full_name : String) : ParsedName :=
  if full_name = "" then ⟨"", "", "", "", ""⟩
  else
    let nt := remove_title full_name
    let title := nt.2
    let name := normalize_string nt.1 false true
    let parts := pySplit name
    if parts.length = 0 then ⟨"", "", "", "", title⟩
    else if parts.length = 1 then ⟨parts.getD 0 "", "", "", "", title⟩
    else if parts.length = 2 then
      ⟨parts.getD 0 "", "", parts.getD 1 "", "", title⟩
    else if parts.length = 3 then
      let normalized_last := normalize_suffix (parts.getD 2 "")
      if normalized_last ≠ "" ∧
          (SUFFIX_VARIATIONS.map Prod.snd).contains normalized_last then
        ⟨parts.getD 0 "", "", parts.getD 1 "", parts.getD 2 "", title⟩
      else ⟨parts.getD 0 "", parts.getD 1 "", parts.getD 2 "", "", title⟩
    else
      let last_part_clean := cleanTableWord (parts.getLastD "")
      if (SUFFIX_VARIATIONS.map Prod.fst).contains last_part_clean ∨
          (SUFFIX_VARIATIONS.map Prod.snd).contains last_part_clean then
        ⟨parts.getD 0 "",
         String.intercalate " " ((parts.drop 1).dropLast.dropLast),
         (parts.dropLast).getLastD "", parts.getLastD "", title⟩
      else
        ⟨parts.getD 0 "", String.intercalate " " ((parts.drop 1).dropLast),
         parts.getLastD "", "", title⟩

/-- utils/helpers.py extract_entity_type. -/
def extract_entity_type (name : String) : String :=
  if name = "" then "individual"
  else
    let name_lower := toLowerStr name
    if trust_indicators.any (fun ind => pyContains name_lower ind) then "trust"
    else if department_indicators.any (fun ind => pyContains name_lower ind) then
      "department"
    else if business_indicators.any (fun ind => pyContains name_lower ind) then
      "business"
    else "individual"

/-- Inner search of extract_department_name: first indicator contained in
the lowercased name for which some whitespace token contains it; answer is
the preceding token, or the indicator itself when that token is first. -/
def deptNameGo (nl : String) : List String → String
  | [] => nl
  | ind :: rest =>
    if pyContains nl ind then
      match (pySplit nl).findIdx? (fun part => pyContains part ind) with
      | some i => if i > 0 then (pySplit nl).getD (i - 1) "" else ind
      | none => deptNameGo nl rest
    else deptNameGo nl rest

/-- utils/helpers.py extract_department_name. -/
def extract_department_name (name : String) : String :=
  deptNameGo (toLowerStr name) department_indicators

/-- utils/helpers.py should_match_entities. -/
def should_match_entities (entity1_type entity2_type name1 name2 : String) :
    Bool :=
  if entity1_type ≠ entity2_type then false
  else if entity1_type = "department" then
    extract_department_name name1 = extract_department_name name2
  else true

/-- Python re.sub applied to a word in normalize_name_with_nicknames:
keep only word characters. -/
def cleanWord (w : String) : String :=
  String.mk (w.data.filter (fun c => c.isAlphanum || c == '_'))

/-- The word loop of normalize_name_with_nicknames. -/
def nicknameWords : List String → List String
  | [] => []
  | w :: ws =>
    (match NICKNAME_MAP.lookup (cleanWord w) with
     | some full => full
     | none => w) :: nicknameWords ws

/-- utils/helpers.py normalize_name_with_nicknames. -/
def normalize_name_with_nicknames (name : String) : String :=
  String.intercalate " " (nicknameWords (pySplit (normalize_string name)))

example : normalize_suffix "Jr." = "jr" := by decide
example : normalize_suffix "II" = "2" := by decide
example : (parse_name "John Smith Jr").suffix = "Jr" := by decide
example : (parse_name "John A Smith").middle = "A" := by decide
example : extract_entity_type "Acme LLC" = "business" := by decide
example : extract_entity_type "John Smith" = "individual" := by decide
example : extract_entity_type "Radiology Department" = "department" := by decide
example : extract_department_name "Hospital Radiology Dept" = "radiology" := by
  decide
example : normalize_name_with_nicknames "Mike Smith" = "michael smith" := by
  decide

/-! ### agents/matching_agent.py : similarity scoring

`MatchingAgent._calculate_similarities` scores one candidate pair at a
time.  The external fuzzy comparators (`thefuzz.fuzz.ratio` and
`fuzz.token_sort_ratio`, both already divided by 100 by the agent) are
modelled as an abstract parameter: the agent only post-processes their
values.  Records carry the dataframe columns the agent reads. -/

structure Fuzz where
  ratioFn : String → String → ℚ
  tokenSortRatioFn : String → String → ℚ

structure Rec where
  record_id : Nat
  name : String
  name_normalized : String
  address_normalized : String
  city_normalized : String
  state : String
  zip_normalized : String
  ssn_token : String
deriving DecidableEq

structure ScoredPair where
  record_id_1 : Nat
  record_id_2 : Nat
  similarity_score : ℚ
  name_similarity : ℚ
  address_similarity : ℚ
  match_method : Option String
deriving DecidableEq

/-- Name similarity block: token-sort similarity of the normalized names,
with the nickname-normalized similarity boosted toward 0.99 when it is
higher and at least 0.90. -/
def nameSimilarity (F : Fuzz) (name1 name2 : String) : ℚ :=
  let base_similarity := F.tokenSortRatioFn name1 name2
  let nickname_similarity :=
    F.tokenSortRatioFn (normalize_name_with_nicknames name1)
      (normalize_name_with_nicknames name2)
  if nickname_similarity > base_similarity ∧ nickname_similarity ≥ 0.90 then
    min 0.99 (nickname_similarity + 0.10)
  else
    max base_similarity nickname_similarity

/-- City similarity block: neutral 0.5 when either side is missing. -/
def citySimilarity (F : Fuzz) (city1 city2 : String) : ℚ :=
  if city1 = "" ∨ city1 = "nan" ∨ city1 = "none" ∨
      city2 = "" ∨ city2 = "nan" ∨ city2 = "none" then 0.5
  else F.ratioFn city1 city2

/-- State block: 0.5 when missing, else exact match. -/
def stateSimilarity (state1 state2 : String) : ℚ :=
  if state1 = "" ∨ state1 = "nan" ∨ state1 = "none" ∨
      state2 = "" ∨ state2 = "nan" ∨ state2 = "none" then 0.5
  else if state1 = state2 then 1.0 else 0.0

/-- ZIP block: exact nonempty match only. -/
def zipSimilarity (zip1 zip2 : String) : ℚ :=
  if zip1 ≠ "" ∧ zip2 ≠ "" ∧ zip1 = zip2 then 1.0 else 0.0

/-- `name.split()[0] if name and name != 'nan' else ''`. -/
def firstTokenOf (s : String) : String :=
  if s ≠ "" ∧ s ≠ "nan" then (pySplit s).headD "" else ""

/-- First word of the nickname-normalized token, or empty. -/
def firstNormalizedToken (w : String) : String :=
  let t := normalize_name_with_nicknames w
  if t ≠ "" then (pySplit t).headD "" else ""

/-- Penalty when first names differ even after nickname normalization and
are not close as raw strings. -/
def firstNameAdjusted (F : Fuzz) (nn1 nn2 : String) (total : ℚ) : ℚ :=
  let name1 := toLowerStr nn1
  let name2 := toLowerStr nn2
  let first1 := firstTokenOf name1
  let first2 := firstTokenOf name2
  if first1 ≠ "" ∧ first2 ≠ "" then
    if firstNormalizedToken first1 ≠ firstNormalizedToken first2 then
      if F.ratioFn first1 first2 < 0.70 then max 0.0 (total - 0.15) else total
    else total
  else total

/-- Penalty when exactly one side has a recognized person suffix. -/
def suffixAdjusted (suffix1_norm suffix2_norm : String) (total : ℚ) : ℚ :=
  if suffix1_norm ≠ "" ∨ suffix2_norm ≠ "" then
    if (suffix1_norm ≠ "" ∧ suffix2_norm = "") ∨
        (suffix2_norm ≠ "" ∧ suffix1_norm = "") then
      max 0.0 (total - 0.10)
    else total
  else total

/-- Bonus when ZIP matches exactly and both address and name are similar. -/
def zipBonusAdjusted (simZip simAddr simName total : ℚ) : ℚ :=
  if simZip = 1.0 ∧ simAddr ≥ 0.80 ∧ simName ≥ 0.80 then
    min 1.0 (total + 0.10)
  else total

/-- One iteration of `MatchingAgent._calculate_similarities`: either skip
the pair (safety gates, or the final score below threshold) or emit a
scored pair. -/
def scorePair (F : Fuzz) (threshold : ℚ) (rec1 rec2 : Rec) :
    Option ScoredPair :=
  let entity1_type := extract_entity_type rec1.name
  let entity2_type := extract_entity_type rec2.name
  if should_match_entities entity1_type entity2_type rec1.name rec2.name then
    let suffix1_norm := normalize_suffix (parse_name rec1.name).suffix
    let suffix2_norm := normalize_suffix (parse_name rec2.name).suffix
    if suffix1_norm ≠ "" ∧ suffix2_norm ≠ "" ∧ suffix1_norm ≠ suffix2_norm then
      none
    else if rec1.ssn_token ≠ "" ∧ rec2.ssn_token ≠ "" ∧
        rec1.ssn_token = rec2.ssn_token then
      some ⟨rec1.record_id, rec2.record_id, 1.0, 1.0, 1.0, some "ssn_exact"⟩
    else
      let simName := nameSimilarity F rec1.name_normalized rec2.name_normalized
      let simAddr := F.ratioFn rec1.address_normalized rec2.address_normalized
      let simCity := citySimilarity F rec1.city_normalized rec2.city_normalized
      let simState := stateSimilarity rec1.state rec2.state
      let simZip := zipSimilarity rec1.zip_normalized rec2.zip_normalized
      let total0 := simName * 0.40 + simAddr * 0.30 + simCity * 0.10 +
        simState * 0.10 + simZip * 0.10
      let total1 :=
        firstNameAdjusted F rec1.name_normalized rec2.name_normalized total0
      let total2 := suffixAdjusted suffix1_norm suffix2_norm total1
      let total3 := zipBonusAdjusted simZip simAddr simName total2
      if total3 ≥ threshold then
        some ⟨rec1.record_id, rec2.record_id, total3, simName, simAddr, none⟩
      else none
  else none

/-- `MatchingAgent._calculate_similarities` over a whole candidate list. -/
def calculate_similarities (F : Fuzz) (threshold : ℚ)
    (pairs : List (Rec × Rec)) : List ScoredPair :=
  pairs.filterMap (fun p => scorePair F threshold p.1 p.2)

/-- A constant comparator used to instantiate theorems on concrete data. -/
def halfFuzz : Fuzz := ⟨fun _ _ => 0.5, fun _ _ => 0.5⟩

def recJr : Rec :=
  ⟨1, "John Smith Jr", "john smith jr", "123 main st", "austin", "tx",
   "78701", ""⟩

def recSr : Rec :=
  ⟨2, "John Smith Sr", "john smith sr", "123 main st", "austin", "tx",
   "78701", ""⟩

example : scorePair halfFuzz 0.85 recJr recSr = none := by decide

def recBiz : Rec :=
  ⟨3, "Acme LLC", "acme llc", "1 elm st", "austin", "tx", "78701",
   "123456789"⟩

def recInd : Rec :=
  ⟨4, "John Smith", "john smith", "1 elm st", "austin", "tx", "78701",
   "123456789"⟩

example : scorePair halfFuzz 0.85 recBiz recInd = none := by decide

def recInd2 : Rec :=
  ⟨5, "John Smith", "john smith", "2 oak st", "dallas", "tx", "75201",
   "123456789"⟩

example : scorePair halfFuzz 0.85 recInd recInd2 =
    some ⟨4, 5, 1.0, 1.0, 1.0, some "ssn_exact"⟩ := by
  with_unfolding_all decide

/-! ### utils/smart_blocking.py : limited missing-data fallback

`SmartBlockingStrategy._limited_missing_data_fallback` compares every
record not covered by the earlier strategies against an evenly spaced
sample of the sorted index list, deduplicating pairs and stopping as soon
as the configured cap is reached.  Python sets are modelled as
duplicate-free lists (membership and size are all that is used). -/

/-- Python sorted() on a list of indices (insertion sort). -/
def insertSorted (x : Nat) : List Nat → List Nat
  | [] => [x]
  | y :: ys => if x ≤ y then x :: y :: ys else y :: insertSorted x ys

def sortNat (l : List Nat) : List Nat := l.foldr insertSorted []

/-- Python slice l[::step]: elements at positions 0, step, 2*step, ....
The counter is the distance to the next retained position. -/
def takeEveryAux (step : Nat) : List Nat → Nat → List Nat
  | [], _ => []
  | x :: xs, 0 => x :: takeEveryAux step xs (step - 1)
  | _ :: xs, c + 1 => takeEveryAux step xs c

def takeEvery (step : Nat) (l : List Nat) : List Nat := takeEveryAux step l 0

/-- Python set.add on a list kept duplicate-free. -/
def insertPair (acc : List (Nat × Nat)) (p : Nat × Nat) : List (Nat × Nat) :=
  if p ∈ acc then acc else acc ++ [p]

/-- covered_indices: both members of every existing pair. -/
def coveredOf (existingPairs : List (Nat × Nat)) : List Nat :=
  existingPairs.foldl (fun acc p => p.1 :: p.2 :: acc) []

/-- Records not touched by any earlier blocking strategy. -/
def uncoveredOf (allIndices : List Nat) (existingPairs : List (Nat × Nat)) :
    List Nat :=
  allIndices.filter (fun i => !((coveredOf existingPairs).contains i))

/-- Inner loop over the sampled indices for one uncovered record; the
boolean reports whether the cap was reached (Python early return). -/
def innerLoop (maxPairs uncIdx : Nat) :
    List Nat → List (Nat × Nat) → List (Nat × Nat) × Bool
  | [], acc => (acc, false)
  | other :: rest, acc =>
    let acc2 := if uncIdx ≠ other then
        insertPair acc (min uncIdx other, max uncIdx other)
      else acc
    if maxPairs ≤ acc2.length then (acc2, true)
    else innerLoop maxPairs uncIdx rest acc2

/-- Outer loop over the uncovered records. -/
def outerLoop (maxPairs : Nat) (sampled : List Nat) :
    List Nat → List (Nat × Nat) → List (Nat × Nat)
  | [], acc => acc
  | u :: rest, acc =>
    match innerLoop maxPairs u sampled acc with
    | (acc2, true) => acc2
    | (acc2, false) => outerLoop maxPairs sampled rest acc2

/-- `SmartBlockingStrategy._limited_missing_data_fallback`. -/
def limitedFallback (allIndices : List Nat) (existingPairs : List (Nat × Nat))
    (maxPairs : Nat) : List (Nat × Nat) :=
  let uncovered := uncoveredOf allIndices existingPairs
  if uncovered.isEmpty then []
  else
    let uncovered_indices := sortNat uncovered
    let all_indices := sortNat allIndices
    let max_comparisons_per_record := min 100 all_indices.length
    let step := max 1 (all_indices.length / max_comparisons_per_record)
    outerLoop maxPairs (takeEvery step all_indices) uncovered_indices []

example : limitedFallback [0, 1, 2] [] 1 = [(0, 1)] := by decide
example : limitedFallback [0, 1, 2] [(0, 1)] 50000 = [(0, 2), (1, 2)] := by
  decide

/-! ### Clustering (matching_agent.py `_cluster_duplicates`,
skills/matching_skills.py `cluster_duplicates`)

The agent builds an undirected adjacency graph from the duplicate pairs
and assigns one cluster id per connected component (depth-first search);
records touched by no pair keep the sentinel id -1.  The partition is
embedded as bounded-depth reachability in the adjacency graph: the fuel
equals the length of the node list, which bounds the length of any
duplicate-free path. -/

/-- All node occurrences of the pair list (the keys of the adjacency
graph). -/
def nodesOf (pairs : List (Nat × Nat)) : List Nat :=
  pairs.foldr (fun p acc => p.1 :: p.2 :: acc) []

/-- Adjacency: the two records appear together in some pair. -/
def adjB (pairs : List (Nat × Nat)) (x y : Nat) : Bool :=
  pairs.any (fun p => (p.1 == x && p.2 == y) || (p.1 == y && p.2 == x))

/-- Bounded-depth reachability through the adjacency graph. -/
def reachB (pairs : List (Nat × Nat)) : Nat → Nat → Nat → Bool
  | 0, x, y => x == y
  | fuel + 1, x, y =>
    x == y ||
      (nodesOf pairs).any (fun z => adjB pairs x z && reachB pairs fuel z y)

/-- Two records end up in the same cluster iff they are connected in the
adjacency graph built from the duplicate pairs. -/
def sameCluster (pairs : List (Nat × Nat)) (x y : Nat) : Bool :=
  reachB pairs (nodesOf pairs).length x y

/-- Records that received some duplicate pair; all others keep the
sentinel cluster id -1. -/
def inGraph (pairs : List (Nat × Nat)) (x : Nat) : Bool :=
  (nodesOf pairs).contains x

example : sameCluster [(1, 2), (2, 3)] 1 3 = true := by decide
example : sameCluster [(1, 2), (4, 5)] 1 4 = false := by decide
example : inGraph [(1, 2)] 7 = false := by decide

/-! ### utils/versioning.py : MergeVersionManager

The three ledger tables and the source-record table are modelled as lists
of rows; a row is an association list from column name to a JSON-style
value (string, number or null).  AUTOINCREMENT is modelled by `nextOpId`.
`record_merge_operation` and `undo_merge` are direct translations of the
SQL statement sequences; every early-return path of `undo_merge` happens
before any write, so it returns the state unchanged there. -/

inductive Value where
  | vstr (s : String)
  | vnum (q : ℚ)
  | vnull
deriving DecidableEq

/-- A row: column name to value. -/
abbrev DataRow := List (String × Value)

/-- Value of a column in a row (SQL NULL when absent). -/
def colVal (r : DataRow) (k : String) : Value := (r.lookup k).getD .vnull

/-- SQL `SET k = v`: overwrite the binding for one column. -/
def setVal : DataRow → String → Value → DataRow
  | [], k, v => [(k, v)]
  | (k0, v0) :: rest, k, v =>
    if k0 = k then (k, v) :: rest else (k0, v0) :: setVal rest k v

/-- `record.get('record_id', '')`. -/
def ridOf (r : DataRow) : String :=
  match r.lookup "record_id" with
  | some (.vstr s) => s
  | _ => ""

/-- The dynamic UPDATE of `undo_merge`: set every snapshot column except
the primary key. -/
def applyData (fields data : DataRow) : DataRow :=
  data.foldl
    (fun fs kv => if kv.1 = "record_id" then fs else setVal fs kv.1 kv.2)
    fields

/-- `UPDATE ba_source_records SET ... WHERE record_id = ?`. -/
def updateMatching (rows : List DataRow) (rid : String) (data : DataRow) :
    List DataRow :=
  rows.map (fun row =>
    if colVal row "record_id" = .vstr rid then applyData row data else row)

/-- The restore loop over all before-merge snapshots. -/
def restoreSnapshots (rows : List DataRow) (snaps : List (String × DataRow)) :
    List DataRow :=
  snaps.foldl (fun rs sn => updateMatching rs sn.1 sn.2) rows

structure MergeOp where
  operation_id : Nat
  operation_type : String
  user_id : String
  cluster_id : Int
  record_count : Nat
  golden_record_id : Option String
  is_undone : Bool
  undone_by_operation_id : Option Nat
  notes : Option String
deriving DecidableEq

structure RecordVersion where
  operation_id : Nat
  record_id : String
  version_type : String
  record_data : DataRow
deriving DecidableEq

structure MergeRel where
  operation_id : Nat
  source_record_id : String
  target_record_id : String
  similarity_score : Value
deriving DecidableEq

structure LedgerState where
  operations : List MergeOp
  versions : List RecordVersion
  relationships : List MergeRel
  sourceRecords : List DataRow
  nextOpId : Nat
deriving DecidableEq

/-- Result of `undo_merge`: the structured dictionaries the Python code
returns, with the failure reasons it uses. -/
inductive UndoResult where
  | failure (error : String)
  | success (operation_id undo_operation_id : Nat) (cluster_id : Int)
      (restored_count : Nat)
deriving DecidableEq

/-- `MergeVersionManager.record_merge_operation`: insert one operation
row, one before_merge snapshot per cluster record, one golden snapshot,
and one relationship row per cluster record; returns the new
operation id. -/
def record_merge_operation (s : LedgerState) (cluster_id : Int)
    (records_df : List DataRow) (golden_record : DataRow)
    (operation_type : String) (user_id : Option String)
    (notes : Option String) : Nat × LedgerState :=
  let operation_id := s.nextOpId
  let op : MergeOp :=
    { operation_id := operation_id
      operation_type := operation_type
      user_id := user_id.getD "system"
      cluster_id := cluster_id
      record_count := records_df.length
      golden_record_id := some (ridOf golden_record)
      is_undone := false
      undone_by_operation_id := none
      notes := notes }
  let before_merge_versions := records_df.map (fun r =>
    ({ operation_id := operation_id, record_id := ridOf r,
       version_type := "before_merge", record_data := r } : RecordVersion))
  let golden_version : RecordVersion :=
    { operation_id := operation_id, record_id := ridOf golden_record,
      version_type := "golden", record_data := golden_record }
  let rels := records_df.map (fun r =>
    ({ operation_id := operation_id, source_record_id := ridOf r,
       target_record_id := ridOf golden_record,
       similarity_score := (r.lookup "similarity_score").getD (.vnum 1) } :
      MergeRel))
  (operation_id,
   { s with
     operations := s.operations ++ [op]
     versions := (s.versions ++ before_merge_versions) ++ [golden_version]
     relationships := s.relationships ++ rels
     nextOpId := s.nextOpId + 1 })

/-- The before_merge snapshots of one operation, in table order. -/
def beforeSnapshots (versions : List RecordVersion) (opid : Nat) :
    List (String × DataRow) :=
  (versions.filter
    (fun v => v.operation_id == opid && v.version_type == "before_merge")).map
    (fun v => (v.record_id, v.record_data))

/-- `MergeVersionManager.undo_merge`. -/
def undo_merge (s : LedgerState) (operation_id : Nat)
    (user_id : Option String) : UndoResult × LedgerState :=
  match s.operations.find? (fun op => op.operation_id == operation_id) with
  | none => (.failure "Operation not found", s)
  | some operation =>
    if operation.is_undone then (.failure "Operation already undone", s)
    else
      let before_snapshots := beforeSnapshots s.versions operation_id
      if before_snapshots.isEmpty then (.failure "No snapshots found", s)
      else
        let newRows := restoreSnapshots s.sourceRecords before_snapshots
        let ops1 := s.operations.map (fun o =>
          if o.operation_id = operation_id then { o with is_undone := true }
          else o)
        let undo_op : MergeOp :=
          { operation_id := s.nextOpId
            operation_type := "undo"
            user_id := user_id.getD "system"
            cluster_id := operation.cluster_id
            record_count := operation.record_count
            golden_record_id := none
            is_undone := false
            undone_by_operation_id := none
            notes := some ("Undo of operation " ++ toString operation_id) }
        let ops2 := (ops1 ++ [undo_op]).map (fun o =>
          if o.operation_id = operation_id then
            { o with undone_by_operation_id := some s.nextOpId }
          else o)
        (.success operation_id s.nextOpId operation.cluster_id
           before_snapshots.length,
         { s with
           operations := ops2
           sourceRecords := newRows
           nextOpId := s.nextOpId + 1 })

/-- `MergeVersionManager.rollback_to_timestamp` undoes, most recent
first, every not-yet-undone non-undo operation after the target time;
timestamps are modelled by operation ids (AUTOINCREMENT order). -/
def rollback_to_timestamp (s : LedgerState) (target : Nat)
    (user_id : Option String) : LedgerState :=
  let to_undo := (s.operations.filter (fun op =>
    target < op.operation_id && !op.is_undone &&
      op.operation_type != "undo")).map (fun op => op.operation_id)
  to_undo.reverse.foldl (fun st opid => (undo_merge st opid user_id).2) s

/-! ### Claim theorems -/

/-- The entity gate refuses exactly when the types differ, or both are
departments with different extracted department names. -/
theorem should_match_entities_eq_false {t1 t2 n1 n2 : String}
    (h : t1 ≠ t2 ∨
      (t1 = "department" ∧ t2 = "department" ∧
        extract_department_name n1 ≠ extract_department_name n2)) :
    should_match_entities t1 t2 n1 n2 = false := by
  rcases h with h | ⟨h1, _h2, h3⟩
  · simp [should_match_entities, h]
  · subst h1
    simp [should_match_entities, h3]

/-- C4: For every candidate pair whose two records have incompatible
entity types — different extracted entity_type values, or both classified
as department but with different extracted department-name substrings —
no ScoredPair is produced, even when the string similarity of the names
or addresses is high (the conclusion holds for every fuzzy comparator and
every threshold). -/
theorem entity_gate_skips_pair (F : Fuzz) (threshold : ℚ) (rec1 rec2 : Rec)
    (h : extract_entity_type rec1.name ≠ extract_entity_type rec2.name ∨
      (extract_entity_type rec1.name = "department" ∧
        extract_entity_type rec2.name = "department" ∧
        extract_department_name rec1.name ≠
          extract_department_name rec2.name)) :
    scorePair F threshold rec1 rec2 = none := by
  have hsm := should_match_entities_eq_false h
  simp [scorePair, hsm]

/-- Witness for C4 at a concrete input: a business record and an
individual record are never scored against each other. -/
theorem entity_gate_skips_pair_witness :
    (extract_entity_type recBiz.name ≠ extract_entity_type recInd.name ∨
      (extract_entity_type recBiz.name = "department" ∧
        extract_entity_type recInd.name = "department" ∧
        extract_department_name recBiz.name ≠
          extract_department_name recInd.name)) ∧
    scorePair halfFuzz 0.85 recBiz recInd = none := by
  refine ⟨Or.inl (by decide), ?_⟩
  exact entity_gate_skips_pair halfFuzz 0.85 recBiz recInd (Or.inl (by decide))

/-- C3: For every candidate pair where both parsed name suffixes
normalize to non-empty values that differ from each other, no ScoredPair
is produced: the pair is skipped before any similarity is computed, for
every fuzzy comparator and every threshold.  (Recognition in the suffix
table is not needed for the gate; in particular all recognized, differing
suffixes such as "jr" vs "sr" are covered.) -/
theorem suffix_gate_skips_pair (F : Fuzz) (threshold : ℚ) (rec1 rec2 : Rec)
    (h1 : normalize_suffix (parse_name rec1.name).suffix ≠ "")
    (h2 : normalize_suffix (parse_name rec2.name).suffix ≠ "")
    (h3 : normalize_suffix (parse_name rec1.name).suffix ≠
      normalize_suffix (parse_name rec2.name).suffix) :
    scorePair F threshold rec1 rec2 = none := by
  by_cases hsm : should_match_entities (extract_entity_type rec1.name)
      (extract_entity_type rec2.name) rec1.name rec2.name = true
  · simp [scorePair, hsm, h1, h2, h3]
  · simp only [Bool.not_eq_true] at hsm
    simp [scorePair, hsm]

/-- Witness for C3 at a concrete input: "John Smith Jr" vs
"John Smith Sr" is skipped. -/
theorem suffix_gate_skips_pair_witness :
    normalize_suffix (parse_name recJr.name).suffix ≠ "" ∧
    normalize_suffix (parse_name recSr.name).suffix ≠ "" ∧
    normalize_suffix (parse_name recJr.name).suffix ≠
      normalize_suffix (parse_name recSr.name).suffix ∧
    scorePair halfFuzz 0.85 recJr recSr = none := by
  refine ⟨by decide, by decide, by decide, ?_⟩
  exact suffix_gate_skips_pair halfFuzz 0.85 recJr recSr (by decide)
    (by decide) (by decide)

/-- C2, counterexample: two records with equal non-empty SSN tokens for
which the scorer produces no ScoredPair at all — the entity-type gate
runs before the SSN fast path, so "regardless of any other field values"
fails (recBiz is a business, recInd an individual, both with
ssn_token "123456789"). -/
theorem ssn_fast_path_counterexample :
    recBiz.ssn_token = recInd.ssn_token ∧ recBiz.ssn_token ≠ "" ∧
    scorePair halfFuzz 0.85 recBiz recInd = none := by
  refine ⟨by decide, by decide, ?_⟩
  with_unfolding_all decide

/-- C2, amended: for every candidate pair that passes the entity-type
and suffix safety gates (which are evaluated first), if both records
carry a non-empty national-ID token and the tokens are equal, the scorer
produces a ScoredPair with similarity_score = 1.0 and match method
"ssn_exact", with no further computation (the result does not depend on
the fuzzy comparator, the threshold, or any other field value). -/
theorem ssn_fast_path_scores_one (F : Fuzz) (threshold : ℚ) (rec1 rec2 : Rec)
    (hgate : should_match_entities (extract_entity_type rec1.name)
      (extract_entity_type rec2.name) rec1.name rec2.name = true)
    (hsuf : ¬ (normalize_suffix (parse_name rec1.name).suffix ≠ "" ∧
      normalize_suffix (parse_name rec2.name).suffix ≠ "" ∧
      normalize_suffix (parse_name rec1.name).suffix ≠
        normalize_suffix (parse_name rec2.name).suffix))
    (_hs1 : rec1.ssn_token ≠ "") (hs2 : rec2.ssn_token ≠ "")
    (heq : rec1.ssn_token = rec2.ssn_token) :
    scorePair F threshold rec1 rec2 =
      some ⟨rec1.record_id, rec2.record_id, 1.0, 1.0, 1.0,
        some "ssn_exact"⟩ := by
  simp [scorePair, hgate, hsuf, hs2, heq]

/-- Witness for the amended C2 at a concrete input: two individuals with
the same SSN token short-circuit to score 1.0. -/
theorem ssn_fast_path_scores_one_witness :
    recInd.ssn_token = recInd2.ssn_token ∧
    scorePair halfFuzz 0.85 recInd recInd2 =
      some ⟨4, 5, 1.0, 1.0, 1.0, some "ssn_exact"⟩ := by
  refine ⟨by decide, ?_⟩
  exact ssn_fast_path_scores_one halfFuzz 0.85 recInd recInd2 (by decide)
    (by decide) (by decide) (by decide) (by decide)

section ScoreBounds

variable {F : Fuzz}

theorem nameSimilarity_bounds
    (ht : ∀ a b, 0 ≤ F.tokenSortRatioFn a b ∧ F.tokenSortRatioFn a b ≤ 1)
    (n1 n2 : String) :
    0 ≤ nameSimilarity F n1 n2 ∧ nameSimilarity F n1 n2 ≤ 1 := by
  unfold nameSimilarity
  dsimp only
  obtain ⟨hb0, hb1⟩ := ht n1 n2
  obtain ⟨hn0, hn1⟩ :=
    ht (normalize_name_with_nicknames n1) (normalize_name_with_nicknames n2)
  split_ifs with h
  · constructor
    · rw [le_min_iff]
      constructor <;> [norm_num; linarith]
    · calc min (0.99 : ℚ) _ ≤ 0.99 := min_le_left _ _
        _ ≤ 1 := by norm_num
  · constructor
    · rw [le_max_iff]; left; exact hb0
    · rw [max_le_iff]; exact ⟨hb1, hn1⟩

theorem citySimilarity_bounds
    (hr : ∀ a b, 0 ≤ F.ratioFn a b ∧ F.ratioFn a b ≤ 1) (c1 c2 : String) :
    0 ≤ citySimilarity F c1 c2 ∧ citySimilarity F c1 c2 ≤ 1 := by
  unfold citySimilarity
  split_ifs with h
  · constructor <;> norm_num
  · exact hr c1 c2

theorem stateSimilarity_bounds (s1 s2 : String) :
    0 ≤ stateSimilarity s1 s2 ∧ stateSimilarity s1 s2 ≤ 1 := by
  unfold stateSimilarity
  split_ifs <;> constructor <;> norm_num

theorem zipSimilarity_bounds (z1 z2 : String) :
    0 ≤ zipSimilarity z1 z2 ∧ zipSimilarity z1 z2 ≤ 1 := by
  unfold zipSimilarity
  split_ifs <;> constructor <;> norm_num

theorem firstNameAdjusted_bounds (nn1 nn2 : String) {t : ℚ}
    (h0 : 0 ≤ t) (h1 : t ≤ 1) :
    0 ≤ firstNameAdjusted F nn1 nn2 t ∧ firstNameAdjusted F nn1 nn2 t ≤ 1 := by
  unfold firstNameAdjusted
  dsimp only
  split_ifs <;>
    first
    | exact ⟨h0, h1⟩
    | constructor
      · rw [le_max_iff]; left; norm_num
      · rw [max_le_iff]; constructor <;> [norm_num; linarith]

theorem suffixAdjusted_bounds (s1 s2 : String) {t : ℚ}
    (h0 : 0 ≤ t) (h1 : t ≤ 1) :
    0 ≤ suffixAdjusted s1 s2 t ∧ suffixAdjusted s1 s2 t ≤ 1 := by
  unfold suffixAdjusted
  split_ifs <;>
    first
    | exact ⟨h0, h1⟩
    | constructor
      · rw [le_max_iff]; left; norm_num
      · rw [max_le_iff]; constructor <;> [norm_num; linarith]

theorem zipBonusAdjusted_bounds (z a n : ℚ) {t : ℚ}
    (h0 : 0 ≤ t) (h1 : t ≤ 1) :
    0 ≤ zipBonusAdjusted z a n t ∧ zipBonusAdjusted z a n t ≤ 1 := by
  unfold zipBonusAdjusted
  split_ifs <;>
    first
    | exact ⟨h0, h1⟩
    | constructor
      · rw [le_min_iff]; constructor <;> [norm_num; linarith]
      · calc min (1.0 : ℚ) _ ≤ 1.0 := min_le_left _ _
          _ ≤ 1 := by norm_num

end ScoreBounds

/-- C5: For every ScoredPair the scorer emits — after the weighted sum
(weights name 0.40, address 0.30, city 0.10, state 0.10, zip 0.10), the
first-name penalty, the one-sided-suffix penalty, and the
ZIP/address/name corroboration bonus — the final similarity_score lies in
[0, 1].  The external fuzzy comparators return values in [0, 1] (thefuzz
scores divided by 100), which is the only assumption. -/
theorem similarity_score_in_unit_interval (F : Fuzz)
    (hr : ∀ a b, 0 ≤ F.ratioFn a b ∧ F.ratioFn a b ≤ 1)
    (ht : ∀ a b, 0 ≤ F.tokenSortRatioFn a b ∧ F.tokenSortRatioFn a b ≤ 1)
    (threshold : ℚ) (rec1 rec2 : Rec) (sp : ScoredPair)
    (h : scorePair F threshold rec1 rec2 = some sp) :
    0 ≤ sp.similarity_score ∧ sp.similarity_score ≤ 1 := by
  simp only [scorePair] at h
  -- split_ifs discharges the three skip branches (none = some) itself
  split_ifs at h with hgate hsuf hssn hthr
  all_goals obtain rfl := Option.some.inj h
  all_goals dsimp only
  -- the SSN fast path emits the constant score 1.0
  any_goals solve | (constructor <;> norm_num)
  -- the weighted-sum path
  obtain ⟨hn0, hn1⟩ :=
    nameSimilarity_bounds ht rec1.name_normalized rec2.name_normalized
  obtain ⟨ha0, ha1⟩ := hr rec1.address_normalized rec2.address_normalized
  obtain ⟨hc0, hc1⟩ :=
    citySimilarity_bounds hr rec1.city_normalized rec2.city_normalized
  obtain ⟨hs0, hs1⟩ := stateSimilarity_bounds rec1.state rec2.state
  obtain ⟨hz0, hz1⟩ :=
    zipSimilarity_bounds rec1.zip_normalized rec2.zip_normalized
  have h0 : (0 : ℚ) ≤
      nameSimilarity F rec1.name_normalized rec2.name_normalized * 0.40 +
      F.ratioFn rec1.address_normalized rec2.address_normalized * 0.30 +
      citySimilarity F rec1.city_normalized rec2.city_normalized * 0.10 +
      stateSimilarity rec1.state rec2.state * 0.10 +
      zipSimilarity rec1.zip_normalized rec2.zip_normalized * 0.10 := by
    have e1 : (0.40 : ℚ) = 2/5 := by norm_num
    have e2 : (0.30 : ℚ) = 3/10 := by norm_num
    have e3 : (0.10 : ℚ) = 1/10 := by norm_num
    rw [e1, e2, e3]
    nlinarith
  have h1 :
      nameSimilarity F rec1.name_normalized rec2.name_normalized * 0.40 +
      F.ratioFn rec1.address_normalized rec2.address_normalized * 0.30 +
      citySimilarity F rec1.city_normalized rec2.city_normalized * 0.10 +
      stateSimilarity rec1.state rec2.state * 0.10 +
      zipSimilarity rec1.zip_normalized rec2.zip_normalized * 0.10 ≤ 1 := by
    have e1 : (0.40 : ℚ) = 2/5 := by norm_num
    have e2 : (0.30 : ℚ) = 3/10 := by norm_num
    have e3 : (0.10 : ℚ) = 1/10 := by norm_num
    rw [e1, e2, e3]
    nlinarith
  obtain ⟨hf0, hf1⟩ := firstNameAdjusted_bounds (F := F)
    rec1.name_normalized rec2.name_normalized h0 h1
  obtain ⟨hg0, hg1⟩ := suffixAdjusted_bounds
    (normalize_suffix (parse_name rec1.name).suffix)
    (normalize_suffix (parse_name rec2.name).suffix) hf0 hf1
  exact zipBonusAdjusted_bounds
    (zipSimilarity rec1.zip_normalized rec2.zip_normalized)
    (F.ratioFn rec1.address_normalized rec2.address_normalized)
    (nameSimilarity F rec1.name_normalized rec2.name_normalized) hg0 hg1

def recA : Rec :=
  ⟨6, "John Smith", "john smith", "100 pine st", "austin", "tx", "78701", ""⟩

def recB : Rec :=
  ⟨7, "John Smith", "john smith", "100 pine st", "austin", "tx", "78701", ""⟩

/-- Witness for C5 at a concrete input: with the constant comparator the
emitted score 0.6 lies in [0, 1]. -/
theorem similarity_score_in_unit_interval_witness :
    0 ≤ (0.6 : ℚ) ∧ (0.6 : ℚ) ≤ 1 := by
  have h := similarity_score_in_unit_interval halfFuzz
    (fun _ _ => show (0 : ℚ) ≤ 0.5 ∧ (0.5 : ℚ) ≤ 1 by
      with_unfolding_all decide)
    (fun _ _ => show (0 : ℚ) ≤ 0.5 ∧ (0.5 : ℚ) ≤ 1 by
      with_unfolding_all decide)
    0 recA recB ⟨6, 7, 0.6, 0.5, 0.5, none⟩ (by with_unfolding_all decide)
  exact h

/-- Per-token nickname substitution: a token is replaced exactly when its
punctuation-stripped form is a key of the fixed nickname table. -/
def substNickname (w : String) : String :=
  match NICKNAME_MAP.lookup (cleanWord w) with
  | some full => full
  | none => w

/-- C9, counterexample: nickname substitution is applied to tokens after
the first as well.  On "Smith Bill" the second token "bill" is mapped to
"william", contradicting "tokens after the first are left unchanged by
nickname substitution". -/
theorem nickname_first_token_only_counterexample :
    normalize_name_with_nicknames "Smith Bill" = "smith william" ∧
    "smith william" ≠ "smith bill" := by
  constructor
  · decide
  · decide

/-- C9, amended: normalize_name_with_nicknames applies the fixed nickname
table to every whitespace token of the normalized (lowercased) name
independently: the word loop equals a pointwise map of the per-token
substitution, so the whole result is the space-join of the substituted
token list (tokens after the first included; a token whose cleaned form
is not a table key is returned unchanged by the substitution). -/
theorem nickname_substitutes_every_token :
    (∀ ws : List String, nicknameWords ws = ws.map substNickname) ∧
    (∀ name : String, normalize_name_with_nicknames name =
      String.intercalate " "
        ((pySplit (normalize_string name)).map substNickname)) := by
  have hmap : ∀ ws : List String, nicknameWords ws = ws.map substNickname := by
    intro ws
    induction ws with
    | nil => rfl
    | cons w rest ih =>
      simp only [nicknameWords, substNickname, List.map_cons, ih]
  refine ⟨hmap, fun name => ?_⟩
  rw [normalize_name_with_nicknames, hmap]

/-! ### undo_merge failure modes -/

theorem undo_merge_notFound_state {s : LedgerState} {opid : Nat}
    {uid : Option String}
    (h : ∀ op ∈ s.operations, op.operation_id ≠ opid) :
    undo_merge s opid uid = (.failure "Operation not found", s) := by
  have hfind : s.operations.find? (fun op => op.operation_id == opid) =
      none :=
    List.find?_eq_none.2 (fun op hop => by simp [h op hop])
  simp [undo_merge, hfind]

theorem undo_merge_alreadyUndone_state {s : LedgerState} {opid : Nat}
    {uid : Option String} {op : MergeOp}
    (hfind : s.operations.find? (fun o => o.operation_id == opid) = some op)
    (hundone : op.is_undone = true) :
    undo_merge s opid uid = (.failure "Operation already undone", s) := by
  simp [undo_merge, hfind, hundone]

theorem undo_merge_noSnapshots_state {s : LedgerState} {opid : Nat}
    {uid : Option String} {op : MergeOp}
    (hfind : s.operations.find? (fun o => o.operation_id == opid) = some op)
    (hnot : op.is_undone = false)
    (hempty : beforeSnapshots s.versions opid = []) :
    undo_merge s opid uid = (.failure "No snapshots found", s) := by
  simp [undo_merge, hfind, hnot, hempty]

/-- C8: undo_merge fails with the structured result "Operation not found"
when no operation with the requested id exists, and with "Operation
already undone" when the target operation's is_undone flag is already
set; in both cases the structured failure is returned (success = false
with the reason) and the state is returned unchanged — never a silent
no-op. -/
theorem undo_merge_failure_modes :
    (∀ (s : LedgerState) (opid : Nat) (uid : Option String),
      (∀ op ∈ s.operations, op.operation_id ≠ opid) →
      undo_merge s opid uid = (.failure "Operation not found", s)) ∧
    (∀ (s : LedgerState) (opid : Nat) (uid : Option String) (op : MergeOp),
      s.operations.find? (fun o => o.operation_id == opid) = some op →
      op.is_undone = true →
      undo_merge s opid uid = (.failure "Operation already undone", s)) := by
  exact ⟨fun _ _ _ h => undo_merge_notFound_state h,
    fun _ _ _ _ hfind hundone =>
      undo_merge_alreadyUndone_state hfind hundone⟩

def ledgerEmpty : LedgerState := ⟨[], [], [], [], 1⟩

def opUndoneEx : MergeOp :=
  ⟨1, "auto_merge", "system", 7, 2, some "g", true, none, none⟩

def ledgerUndone : LedgerState := ⟨[opUndoneEx], [], [], [], 2⟩

def opFreshEx : MergeOp :=
  ⟨1, "auto_merge", "system", 7, 2, some "g", false, none, none⟩

def ledgerNoSnaps : LedgerState := ⟨[opFreshEx], [], [], [], 2⟩

/-- Witness for C8 at concrete inputs: an empty ledger yields
"Operation not found"; a ledger whose only operation is already undone
yields "Operation already undone". -/
theorem undo_merge_failure_modes_witness :
    undo_merge ledgerEmpty 1 none =
      (.failure "Operation not found", ledgerEmpty) ∧
    undo_merge ledgerUndone 1 none =
      (.failure "Operation already undone", ledgerUndone) := by
  constructor
  · exact undo_merge_failure_modes.1 ledgerEmpty 1 none (by simp [ledgerEmpty])
  · exact undo_merge_failure_modes.2 ledgerUndone 1 none opUndoneEx
      (by decide) (by decide)

/-- C10: undo_merge has a third failure mode beyond NotFound and
AlreadyUndone — for an existing, not-yet-undone operation with no stored
before_merge snapshots it returns the structured failure
"No snapshots found"; and in this case, as in the other two failure
cases, every failure returns before any database write, leaving the
ledger tables and the source records unchanged (the returned state equals
the input state). -/
theorem undo_merge_no_snapshots_mode :
    (∀ (s : LedgerState) (opid : Nat) (uid : Option String) (op : MergeOp),
      s.operations.find? (fun o => o.operation_id == opid) = some op →
      op.is_undone = false →
      beforeSnapshots s.versions opid = [] →
      undo_merge s opid uid = (.failure "No snapshots found", s)) ∧
    (∀ (s : LedgerState) (opid : Nat) (uid : Option String) (err : String),
      (undo_merge s opid uid).1 = .failure err →
      (undo_merge s opid uid).2 = s) := by
  constructor
  · exact fun _ _ _ _ hfind hnot hempty =>
      undo_merge_noSnapshots_state hfind hnot hempty
  · intro s opid uid err h
    rcases hfind : s.operations.find? (fun o => o.operation_id == opid) with
      _ | op
    · simp [undo_merge, hfind]
    · by_cases hu : op.is_undone
      · simp [undo_merge, hfind, hu]
      · by_cases he : (beforeSnapshots s.versions opid).isEmpty
        · simp [undo_merge, hfind, hu, he]
        · exfalso
          simp [undo_merge, hfind, hu, he] at h

/-- Witness for C10 at concrete inputs: a ledger with one active
operation but no snapshot rows fails with "No snapshots found" and is
returned unchanged; the not-found failure also leaves the state
unchanged. -/
theorem undo_merge_no_snapshots_mode_witness :
    undo_merge ledgerNoSnaps 1 none =
      (.failure "No snapshots found", ledgerNoSnaps) ∧
    (undo_merge ledgerEmpty 1 none).2 = ledgerEmpty := by
  constructor
  · exact undo_merge_no_snapshots_mode.1 ledgerNoSnaps 1 none opFreshEx
      (by decide) (by decide) (by decide)
  · exact undo_merge_no_snapshots_mode.2 ledgerEmpty 1 none
      "Operation not found" (by decide)

/-! ### Order-independence of clustering -/

theorem nodesOf_perm {pairs1 pairs2 : List (Nat × Nat)}
    (h : pairs1.Perm pairs2) : (nodesOf pairs1).Perm (nodesOf pairs2) := by
  induction h with
  | nil => exact List.Perm.refl _
  | cons p _ ih => exact (ih.cons p.2).cons p.1
  | swap p q l =>
    have e1 : nodesOf (q :: p :: l) =
        ([q.1, q.2] ++ [p.1, p.2]) ++ nodesOf l := by simp [nodesOf]
    have e2 : nodesOf (p :: q :: l) =
        ([p.1, p.2] ++ [q.1, q.2]) ++ nodesOf l := by simp [nodesOf]
    rw [e1, e2]
    exact (List.perm_append_comm).append_right _
  | trans _ _ ih1 ih2 => exact ih1.trans ih2

theorem any_perm {α : Type} {l1 l2 : List α} (h : l1.Perm l2)
    (f : α → Bool) : l1.any f = l2.any f := by
  rw [Bool.eq_iff_iff]
  simp only [List.any_eq_true]
  constructor
  · rintro ⟨a, ha, hf⟩
    exact ⟨a, h.mem_iff.1 ha, hf⟩
  · rintro ⟨a, ha, hf⟩
    exact ⟨a, h.mem_iff.2 ha, hf⟩

theorem adjB_perm {pairs1 pairs2 : List (Nat × Nat)}
    (h : pairs1.Perm pairs2) (x y : Nat) :
    adjB pairs1 x y = adjB pairs2 x y :=
  any_perm h _

theorem reachB_perm {pairs1 pairs2 : List (Nat × Nat)}
    (h : pairs1.Perm pairs2) :
    ∀ (fuel x y : Nat), reachB pairs1 fuel x y = reachB pairs2 fuel x y := by
  intro fuel
  induction fuel with
  | zero => intro x y; rfl
  | succ n ih =>
    intro x y
    have hf : (fun z => adjB pairs1 x z && reachB pairs1 n z y) =
        (fun z => adjB pairs2 x z && reachB pairs2 n z y) :=
      funext fun z => by rw [adjB_perm h, ih]
    show (x == y || (nodesOf pairs1).any _) =
      (x == y || (nodesOf pairs2).any _)
    rw [hf, any_perm (nodesOf_perm h)]

/-- C7: clustering is order-independent.  For every permutation of the
duplicate-pair list, the induced partition is identical: two record ids
are in the same cluster of the permuted run iff they are in the same
cluster of the original run, and exactly the same records stay outside
the graph (those keep the sentinel cluster id -1). -/
theorem clustering_order_independent (pairs1 pairs2 : List (Nat × Nat))
    (h : pairs1.Perm pairs2) :
    (∀ x y : Nat, sameCluster pairs1 x y = sameCluster pairs2 x y) ∧
    (∀ x : Nat, inGraph pairs1 x = inGraph pairs2 x) := by
  constructor
  · intro x y
    unfold sameCluster
    rw [(nodesOf_perm h).length_eq, reachB_perm h]
  · intro x
    unfold inGraph
    rw [Bool.eq_iff_iff]
    constructor
    · intro hx
      have hmem : x ∈ nodesOf pairs1 := by simpa using hx
      simpa using (nodesOf_perm h).mem_iff.1 hmem
    · intro hx
      have hmem : x ∈ nodesOf pairs2 := by simpa using hx
      simpa using (nodesOf_perm h).mem_iff.2 hmem

/-- Witness for C7 at a concrete input: permuting the pair list
[(1,2),(2,3)] leaves both the same-cluster relation and the
singleton (-1) status unchanged. -/
theorem clustering_order_independent_witness :
    sameCluster [(1, 2), (2, 3)] 1 3 = sameCluster [(2, 3), (1, 2)] 1 3 ∧
    inGraph [(1, 2), (2, 3)] 9 = inGraph [(2, 3), (1, 2)] 9 := by
  have h := clustering_order_independent [(1, 2), (2, 3)] [(2, 3), (1, 2)]
    (List.Perm.swap (2, 3) (1, 2) [])
  exact ⟨h.1 1 3, h.2 9⟩

/-! ### Bounded fallback: cap and coverage lemmas -/

theorem insertPair_length_le (acc : List (Nat × Nat)) (p : Nat × Nat) :
    (insertPair acc p).length ≤ acc.length + 1 := by
  unfold insertPair
  split_ifs <;> simp

theorem mem_insertPair_self (acc : List (Nat × Nat)) (p : Nat × Nat) :
    p ∈ insertPair acc p := by
  unfold insertPair
  split_ifs with h
  · exact h
  · simp

theorem mem_insertPair_of_mem {acc : List (Nat × Nat)} {q : Nat × Nat}
    (p : Nat × Nat) (h : q ∈ acc) : q ∈ insertPair acc p := by
  unfold insertPair
  split_ifs <;> simp [h]

/-- The body of one inner-loop iteration: add the pair unless the two
indices coincide. -/
def innerStep (u v : Nat) (acc : List (Nat × Nat)) : List (Nat × Nat) :=
  if u ≠ v then insertPair acc (min u v, max u v) else acc

theorem innerLoop_cons_eq (m u v : Nat) (rest : List Nat)
    (acc : List (Nat × Nat)) :
    innerLoop m u (v :: rest) acc =
      if m ≤ (innerStep u v acc).length then (innerStep u v acc, true)
      else innerLoop m u rest (innerStep u v acc) := rfl

theorem innerStep_mem {q : Nat × Nat} {acc : List (Nat × Nat)}
    (u v : Nat) (h : q ∈ acc) : q ∈ innerStep u v acc := by
  unfold innerStep
  split_ifs
  · exact mem_insertPair_of_mem _ h
  · exact h

theorem innerStep_length_le (u v : Nat) (acc : List (Nat × Nat)) :
    (innerStep u v acc).length ≤ acc.length + 1 := by
  unfold innerStep
  split_ifs
  · exact insertPair_length_le acc _
  · omega

theorem innerStep_self_mem {u v : Nat} (acc : List (Nat × Nat))
    (hne : u ≠ v) : (min u v, max u v) ∈ innerStep u v acc := by
  unfold innerStep
  rw [if_pos hne]
  exact mem_insertPair_self acc _

theorem innerLoop_mem_mono (m u : Nat) (sampled : List Nat)
    {q : Nat × Nat} :
    ∀ {acc : List (Nat × Nat)}, q ∈ acc →
      q ∈ (innerLoop m u sampled acc).1 := by
  induction sampled with
  | nil => intro acc h; exact h
  | cons v rest ih =>
    intro acc h
    rw [innerLoop_cons_eq]
    split_ifs
    · exact innerStep_mem u v h
    · exact ih (innerStep_mem u v h)

theorem innerLoop_length_le (m u : Nat) (sampled : List Nat) :
    ∀ {acc : List (Nat × Nat)}, acc.length < m →
      (innerLoop m u sampled acc).1.length ≤ m := by
  induction sampled with
  | nil => intro acc h; exact Nat.le_of_lt h
  | cons v rest ih =>
    intro acc h
    rw [innerLoop_cons_eq]
    have hlen : (innerStep u v acc).length ≤ m :=
      le_trans (innerStep_length_le u v acc) h
    split_ifs with hcap
    · exact hlen
    · exact ih (lt_of_le_of_ne hlen (fun he => hcap (le_of_eq he.symm)))

theorem innerLoop_not_stopped_length (m u : Nat) (sampled : List Nat) :
    ∀ {acc : List (Nat × Nat)}, acc.length < m →
      (innerLoop m u sampled acc).2 = false →
      (innerLoop m u sampled acc).1.length < m := by
  induction sampled with
  | nil => intro acc h _; exact h
  | cons v rest ih =>
    intro acc h hstop
    rw [innerLoop_cons_eq] at hstop ⊢
    have hlen : (innerStep u v acc).length ≤ m :=
      le_trans (innerStep_length_le u v acc) h
    -- split_ifs discharges the stopped branch (true = false) itself
    split_ifs at hstop ⊢ with hcap
    exact ih (lt_of_le_of_ne hlen (fun he => hcap (le_of_eq he.symm))) hstop

theorem innerLoop_stopped_length (m u : Nat) (sampled : List Nat) :
    ∀ {acc : List (Nat × Nat)},
      (innerLoop m u sampled acc).2 = true →
      m ≤ (innerLoop m u sampled acc).1.length := by
  induction sampled with
  | nil => intro acc h; exact absurd h (by simp [innerLoop])
  | cons v rest ih =>
    intro acc h
    rw [innerLoop_cons_eq] at h ⊢
    split_ifs at h ⊢ with hcap
    · exact hcap
    · exact ih h

theorem innerLoop_covers (m u : Nat) (sampled : List Nat) :
    ∀ {acc : List (Nat × Nat)},
      (innerLoop m u sampled acc).2 = false →
      ∀ v ∈ sampled, u ≠ v →
        (min u v, max u v) ∈ (innerLoop m u sampled acc).1 := by
  induction sampled with
  | nil => intro acc _ v hv; exact absurd hv (by simp)
  | cons w rest ih =>
    intro acc hstop v hv hne
    rw [innerLoop_cons_eq] at hstop ⊢
    -- split_ifs discharges the stopped branch (true = false) itself
    split_ifs at hstop ⊢ with hcap
    rcases List.mem_cons.1 hv with rfl | hv2
    · exact innerLoop_mem_mono m u rest (innerStep_self_mem acc hne)
    · exact ih hstop v hv2 hne

theorem outerLoop_cons_eq (m : Nat) (sampled : List Nat) (u : Nat)
    (rest : List Nat) (acc : List (Nat × Nat)) :
    outerLoop m sampled (u :: rest) acc =
      if (innerLoop m u sampled acc).2 then (innerLoop m u sampled acc).1
      else outerLoop m sampled rest (innerLoop m u sampled acc).1 := by
  rcases hIL : innerLoop m u sampled acc with ⟨acc2, stopped⟩
  cases stopped <;> simp [outerLoop, hIL]

theorem outerLoop_mem_mono (m : Nat) (sampled : List Nat)
    (uncs : List Nat) {q : Nat × Nat} :
    ∀ {acc : List (Nat × Nat)}, q ∈ acc →
      q ∈ outerLoop m sampled uncs acc := by
  induction uncs with
  | nil => intro acc h; exact h
  | cons u rest ih =>
    intro acc h
    rw [outerLoop_cons_eq]
    rcases hstop : (innerLoop m u sampled acc).2 with _ | _
    · rw [if_neg Bool.false_ne_true]
      exact ih (innerLoop_mem_mono m u sampled h)
    · rw [if_pos rfl]
      exact innerLoop_mem_mono m u sampled h

theorem outerLoop_length_le (m : Nat) (sampled : List Nat)
    (uncs : List Nat) :
    ∀ {acc : List (Nat × Nat)}, acc.length < m →
      (outerLoop m sampled uncs acc).length ≤ m := by
  induction uncs with
  | nil => intro acc h; exact Nat.le_of_lt h
  | cons u rest ih =>
    intro acc h
    rw [outerLoop_cons_eq]
    rcases hstop : (innerLoop m u sampled acc).2 with _ | _
    · rw [if_neg Bool.false_ne_true]
      exact ih (innerLoop_not_stopped_length m u sampled h hstop)
    · rw [if_pos rfl]
      exact innerLoop_length_le m u sampled h

theorem outerLoop_covers (m : Nat) (sampled : List Nat)
    (uncs : List Nat) :
    ∀ {acc : List (Nat × Nat)}, acc.length < m →
      (outerLoop m sampled uncs acc).length < m →
      ∀ u ∈ uncs, ∀ v ∈ sampled, u ≠ v →
        (min u v, max u v) ∈ outerLoop m sampled uncs acc := by
  induction uncs with
  | nil => intro acc _ _ u hu; exact absurd hu (by simp)
  | cons u0 rest ih =>
    intro acc hacc hres u hu v hv hne
    rw [outerLoop_cons_eq] at hres ⊢
    rcases hstop : (innerLoop m u0 sampled acc).2 with _ | _
    · rw [hstop] at hres
      rw [if_neg Bool.false_ne_true] at hres ⊢
      rcases List.mem_cons.1 hu with rfl | hu2
      · exact outerLoop_mem_mono m sampled rest
          (innerLoop_covers m u sampled hstop v hv hne)
      · exact ih (innerLoop_not_stopped_length m u0 sampled hacc hstop)
          hres u hu2 v hv hne
    · rw [hstop] at hres
      rw [if_pos rfl] at hres
      exact absurd (innerLoop_stopped_length m u0 sampled hstop)
        (Nat.not_le.2 hres)

/-! Sampling lemmas: the sorted index list, and the slice l[::step]. -/

theorem insertSorted_perm (x : Nat) (l : List Nat) :
    (insertSorted x l).Perm (x :: l) := by
  induction l with
  | nil => exact List.Perm.refl _
  | cons y ys ih =>
    simp only [insertSorted]
    split_ifs
    · exact List.Perm.refl _
    · exact (ih.cons y).trans (List.Perm.swap x y ys)

theorem sortNat_perm (l : List Nat) : (sortNat l).Perm l := by
  induction l with
  | nil => exact List.Perm.refl _
  | cons a l ih =>
    exact (insertSorted_perm a (sortNat l)).trans (ih.cons a)

theorem takeEveryAux_get_mem (step : Nat) :
    ∀ (l : List Nat) (c : Nat) (h : c < l.length),
      l.get ⟨c, h⟩ ∈ takeEveryAux step l c := by
  intro l
  induction l with
  | nil => intro c h; exact absurd h (by simp)
  | cons x xs ih =>
    intro c h
    match c with
    | 0 => simp [takeEveryAux]
    | k + 1 =>
      have hk : k < xs.length := Nat.lt_of_succ_lt_succ h
      simpa [takeEveryAux] using ih k hk

theorem takeEvery_head_mem {l : List Nat} (h0 : 0 < l.length) (step : Nat) :
    l.get ⟨0, h0⟩ ∈ takeEvery step l := takeEveryAux_get_mem step l 0 h0

theorem takeEvery_step_mem {l : List Nat} {step : Nat} (hstep : 1 ≤ step)
    (hlt : step < l.length) :
    l.get ⟨step, hlt⟩ ∈ takeEvery step l := by
  obtain ⟨k, rfl⟩ : ∃ k, step = k + 1 :=
    ⟨step - 1, (Nat.succ_pred_eq_of_pos hstep).symm⟩
  match l with
  | [] => exact absurd hlt (by simp)
  | x :: xs =>
    have hk : k < xs.length := Nat.lt_of_succ_lt_succ hlt
    have hmem := takeEveryAux_get_mem (k + 1) xs k hk
    simp only [takeEvery, takeEveryAux, Nat.add_sub_cancel]
    exact List.mem_cons_of_mem x (by simpa using hmem)

/-- C6, counterexample: with a pair budget of 1 on the three-record set
{0, 1, 2} (all uncovered), the fallback emits only (0, 1): record 2 is
uncovered yet receives no comparison pair, so "every record left
uncovered receives at least one comparison pair" fails once the cap is
reached. -/
theorem fallback_coverage_counterexample :
    limitedFallback [0, 1, 2] [] 1 = [(0, 1)] ∧
    (2 ∈ uncoveredOf [0, 1, 2] []) ∧
    (∀ p ∈ limitedFallback [0, 1, 2] [] 1, p.1 ≠ 2 ∧ p.2 ≠ 2) := by
  refine ⟨by decide, by decide, by decide⟩

/-- C6, amended: the bounded fallback emits at most max_missing_data_pairs
pairs (for any positive budget, the default being 50,000); and whenever
the cap is not reached, every record left uncovered by all earlier
blocking strategies receives at least one comparison pair against the
evenly spaced sample of the full record set (the record set must have at
least two members for a pair to exist).  When the cap is reached, later
uncovered records may receive no pair. -/
theorem limitedFallback_cap_and_coverage (allIndices : List Nat)
    (existingPairs : List (Nat × Nat)) (maxPairs : Nat)
    (hmax : 1 ≤ maxPairs) (hnd : allIndices.Nodup) :
    (limitedFallback allIndices existingPairs maxPairs).length ≤ maxPairs ∧
    ((limitedFallback allIndices existingPairs maxPairs).length < maxPairs →
      2 ≤ allIndices.length →
      ∀ u ∈ uncoveredOf allIndices existingPairs,
        ∃ v, v ≠ u ∧ (min u v, max u v) ∈
          limitedFallback allIndices existingPairs maxPairs) := by
  unfold limitedFallback
  dsimp only
  split_ifs with hempty
  · constructor
    · simp
    · intro _ _ u hu
      rw [List.isEmpty_iff] at hempty
      rw [hempty] at hu
      exact absurd hu (by simp)
  · have hacc : ([] : List (Nat × Nat)).length < maxPairs := hmax
    refine ⟨outerLoop_length_le _ _ _ hacc, ?_⟩
    intro hres h2 u hu
    set all2 := sortNat allIndices with hall2
    have hperm := sortNat_perm allIndices
    have hlen : all2.length = allIndices.length := hperm.length_eq
    have hnd2 : all2.Nodup := hperm.nodup_iff.2 hnd
    set mcpr := min 100 all2.length with hmcpr
    set step := max 1 (all2.length / mcpr) with hstep
    have h2n : 2 ≤ all2.length := hlen ▸ h2
    have hstep1 : 1 ≤ step := le_max_left _ _
    have hstepn : step < all2.length := by
      rw [hstep]
      refine Nat.max_lt.2 ⟨by omega, ?_⟩
      have hm2 : 2 ≤ mcpr := by
        rw [hmcpr]
        exact le_min (by norm_num) h2n
      calc all2.length / mcpr ≤ all2.length / 2 :=
            Nat.div_le_div_left hm2 (by norm_num)
        _ < all2.length := Nat.div_lt_self (by omega) (by norm_num)
    have h0n : 0 < all2.length := by omega
    have hamem := takeEvery_head_mem h0n step
    have hbmem := takeEvery_step_mem hstep1 hstepn
    have hab : all2.get ⟨0, h0n⟩ ≠ all2.get ⟨step, hstepn⟩ := by
      intro he
      have := (hnd2.get_inj_iff).1 he
      have : (0 : Nat) = step := congrArg Fin.val this
      omega
    have hu2 : u ∈ sortNat (uncoveredOf allIndices existingPairs) :=
      (sortNat_perm _).mem_iff.2 hu
    by_cases hua : u = all2.get ⟨0, h0n⟩
    · refine ⟨all2.get ⟨step, hstepn⟩, fun he => hab (hua.symm.trans he.symm),
        ?_⟩
      exact outerLoop_covers _ _ _ hacc hres u hu2 _ hbmem
        (fun he => hab (hua.symm.trans he))
    · exact ⟨all2.get ⟨0, h0n⟩, fun he => hua he.symm,
        outerLoop_covers _ _ _ hacc hres u hu2 _ hamem hua⟩

/-- Witness for the amended C6 at a concrete input: three records of
which 2 is uncovered, default budget 50,000; the cap holds and record 2
receives a pair. -/
theorem limitedFallback_cap_and_coverage_witness :
    (limitedFallback [0, 1, 2] [(0, 1)] 50000).length ≤ 50000 ∧
    ∃ v, v ≠ 2 ∧ (min 2 v, max 2 v) ∈
      limitedFallback [0, 1, 2] [(0, 1)] 50000 := by
  have h := limitedFallback_cap_and_coverage [0, 1, 2] [(0, 1)] 50000
    (by norm_num) (by decide)
  exact ⟨h.1, h.2 (by decide) (by decide) 2 (by decide)⟩

/-! ### Restore lemmas for undo_merge -/

theorem lookup_setVal_self (r : DataRow) (k : String) (v : Value) :
    (setVal r k v).lookup k = some v := by
  induction r with
  | nil => simp [setVal, List.lookup]
  | cons kv rest ih =>
    rcases kv with ⟨k0, v0⟩
    simp only [setVal]
    split_ifs with h
    · simp [List.lookup]
    · have hb : (k == k0) = false := by
        simpa using fun he => h he.symm
      simp [List.lookup, hb, ih]

theorem lookup_setVal_ne (r : DataRow) {k k2 : String} (v : Value)
    (h : k2 ≠ k) : (setVal r k v).lookup k2 = r.lookup k2 := by
  have hb : (k2 == k) = false := by simpa using h
  induction r with
  | nil => simp [setVal, List.lookup, hb]
  | cons kv rest ih =>
    rcases kv with ⟨k0, v0⟩
    simp only [setVal]
    split_ifs with he
    · subst he
      simp [List.lookup, hb]
    · by_cases h2 : k2 = k0
      · subst h2
        simp [List.lookup]
      · have hb2 : (k2 == k0) = false := by simpa using h2
        simp [List.lookup, hb2, ih]

theorem colVal_setVal_self (r : DataRow) (k : String) (v : Value) :
    colVal (setVal r k v) k = v := by
  unfold colVal
  rw [lookup_setVal_self]
  rfl

theorem colVal_setVal_ne (r : DataRow) {k k2 : String} (v : Value)
    (h : k2 ≠ k) : colVal (setVal r k v) k2 = colVal r k2 := by
  unfold colVal
  rw [lookup_setVal_ne r v h]

theorem applyData_cons (r : DataRow) (k : String) (v : Value)
    (rest : DataRow) :
    applyData r ((k, v) :: rest) =
      applyData (if k = "record_id" then r else setVal r k v) rest := by
  unfold applyData
  simp only [List.foldl_cons]

theorem applyData_colVal_notmem (f : String) :
    ∀ (data : DataRow) (r : DataRow), f ∉ data.map Prod.fst →
      colVal (applyData r data) f = colVal r f := by
  intro data
  induction data with
  | nil => intro r _; rfl
  | cons kv rest ih =>
    intro r hf
    rcases kv with ⟨k, v⟩
    rw [applyData_cons]
    have hfk : f ≠ k := by
      intro he
      exact hf (by simp [he])
    have hfrest : f ∉ rest.map Prod.fst := fun hmem => hf (by simp [hmem])
    rw [ih _ hfrest]
    split_ifs
    · rfl
    · exact colVal_setVal_ne r v hfk

theorem applyData_colVal_rid :
    ∀ (data : DataRow) (r : DataRow),
      colVal (applyData r data) "record_id" = colVal r "record_id" := by
  intro data
  induction data with
  | nil => intro r; rfl
  | cons kv rest ih =>
    intro r
    rcases kv with ⟨k, v⟩
    rw [applyData_cons, ih]
    split_ifs with h
    · rfl
    · exact colVal_setVal_ne r v (fun he => h he.symm)

theorem applyData_colVal_mem {f : String} {v : Value} :
    ∀ (data : DataRow) (r : DataRow),
      (data.map Prod.fst).Nodup → (f, v) ∈ data → f ≠ "record_id" →
      colVal (applyData r data) f = v := by
  intro data
  induction data with
  | nil => intro r _ hmem; exact absurd hmem (by simp)
  | cons kv rest ih =>
    intro r hnd hmem hf
    rcases kv with ⟨k, v0⟩
    have hnd2 : (k :: rest.map Prod.fst).Nodup := by simpa using hnd
    rw [applyData_cons]
    rcases List.mem_cons.1 hmem with he | hmem2
    · obtain ⟨h1, h2⟩ := Prod.mk.inj he.symm
      subst h1
      subst h2
      have hnotin : k ∉ rest.map Prod.fst := (List.nodup_cons.1 hnd2).1
      rw [applyData_colVal_notmem k rest _ hnotin]
      rw [if_neg hf]
      exact colVal_setVal_self r k v0
    · exact ih _ (List.nodup_cons.1 hnd2).2 hmem2 hf

/-- One source row under the whole snapshot loop. -/
def applySnapsToRow (snaps : List (String × DataRow)) (row : DataRow) :
    DataRow :=
  snaps.foldl
    (fun r sn => if colVal r "record_id" = .vstr sn.1 then applyData r sn.2
      else r)
    row

theorem restoreSnapshots_eq_map :
    ∀ (snaps : List (String × DataRow)) (rows : List DataRow),
      restoreSnapshots rows snaps = rows.map (applySnapsToRow snaps) := by
  intro snaps
  induction snaps with
  | nil =>
    intro rows
    have h1 : rows.map (applySnapsToRow []) = rows.map (fun r => r) :=
      List.map_congr_left (fun r _ => rfl)
    have h2 : restoreSnapshots rows [] = rows := rfl
    rw [h2, h1]
    exact (List.map_id' rows).symm
  | cons sn rest ih =>
    intro rows
    have h1 : restoreSnapshots rows (sn :: rest) =
        restoreSnapshots (updateMatching rows sn.1 sn.2) rest := rfl
    rw [h1, ih]
    unfold updateMatching
    rw [List.map_map]
    apply List.map_congr_left
    intro row _
    rfl

theorem applySnapsToRow_rid :
    ∀ (snaps : List (String × DataRow)) (row : DataRow),
      colVal (applySnapsToRow snaps row) "record_id" =
        colVal row "record_id" := by
  intro snaps
  induction snaps with
  | nil => intro row; rfl
  | cons sn rest ih =>
    intro row
    show colVal (applySnapsToRow rest
      (if colVal row "record_id" = .vstr sn.1 then applyData row sn.2
        else row)) "record_id" = _
    rw [ih]
    split_ifs
    · exact applyData_colVal_rid sn.2 row
    · rfl

theorem applySnapsToRow_nomatch :
    ∀ (snaps : List (String × DataRow)) (row : DataRow),
      (∀ sn ∈ snaps, colVal row "record_id" ≠ .vstr sn.1) →
      applySnapsToRow snaps row = row := by
  intro snaps
  induction snaps with
  | nil => intro row _; rfl
  | cons sn rest ih =>
    intro row h
    show applySnapsToRow rest
      (if colVal row "record_id" = .vstr sn.1 then applyData row sn.2
        else row) = row
    rw [if_neg (h sn (by simp))]
    exact ih row (fun x hx => h x (by simp [hx]))

theorem applySnapsToRow_lookup {rid : String} {data : DataRow} :
    ∀ (snaps : List (String × DataRow)) (row : DataRow),
      (snaps.map Prod.fst).Nodup → (rid, data) ∈ snaps →
      (data.map Prod.fst).Nodup →
      colVal row "record_id" = .vstr rid →
      ∀ f v, (f, v) ∈ data → f ≠ "record_id" →
        colVal (applySnapsToRow snaps row) f = v := by
  intro snaps
  induction snaps with
  | nil => intro row _ hmem; exact absurd hmem (by simp)
  | cons sn rest ih =>
    intro row hnd hmem hkeys hrow f v hfv hf
    rcases sn with ⟨rid0, d0⟩
    have hndc : (rid0 :: rest.map Prod.fst).Nodup := by simpa using hnd
    have hnd2 := List.nodup_cons.1 hndc
    rcases List.mem_cons.1 hmem with he | hmem2
    · obtain ⟨h1, h2⟩ := Prod.mk.inj he.symm
      subst h1
      subst h2
      show colVal (applySnapsToRow rest
        (if colVal row "record_id" = .vstr rid0 then applyData row d0
          else row)) f = v
      rw [if_pos hrow]
      rw [applySnapsToRow_nomatch rest (applyData row d0) ?_]
      · exact applyData_colVal_mem d0 row hkeys hfv hf
      · intro x hx he2
        apply hnd2.1
        have hr2 : colVal (applyData row d0) "record_id" = .vstr rid0 :=
          (applyData_colVal_rid d0 row).trans hrow
        have h3 : Value.vstr rid0 = Value.vstr x.1 := hr2.symm.trans he2
        have hx1 : x.1 = rid0 := (Value.vstr.inj h3).symm
        rw [← hx1]
        exact List.mem_map.2 ⟨x, hx, rfl⟩
    · have hne : rid ≠ rid0 := by
        intro he2
        apply hnd2.1
        rw [← he2]
        exact List.mem_map.2 ⟨(rid, data), hmem2, rfl⟩
      show colVal (applySnapsToRow rest
        (if colVal row "record_id" = .vstr rid0 then applyData row d0
          else row)) f = v
      rw [if_neg (by rw [hrow]; exact fun he2 => hne (Value.vstr.inj he2))]
      exact ih row hnd2.2 hmem2 hkeys hrow f v hfv hf

theorem find?_append_left_none {α : Type} {p : α → Bool} {l1 l2 : List α}
    (h : ∀ x ∈ l1, p x = false) : (l1 ++ l2).find? p = l2.find? p := by
  rw [List.find?_append, List.find?_eq_none.2 (fun x hx => by simp [h x hx]),
    Option.none_or]

theorem beforeSnapshots_merged (oldVers : List RecordVersion) (opid : Nat)
    (records : List DataRow) (golden : DataRow)
    (h : ∀ v ∈ oldVers, v.operation_id ≠ opid) :
    beforeSnapshots
      ((oldVers ++ records.map (fun r =>
         ({ operation_id := opid, record_id := ridOf r,
            version_type := "before_merge", record_data := r } :
           RecordVersion))) ++
        [{ operation_id := opid, record_id := ridOf golden,
           version_type := "golden", record_data := golden }]) opid =
      records.map (fun r => (ridOf r, r)) := by
  unfold beforeSnapshots
  rw [List.filter_append, List.filter_append]
  have h1 : List.filter
      (fun v => v.operation_id == opid && v.version_type == "before_merge")
      oldVers = [] :=
    List.filter_eq_nil_iff.2 (fun v hv => by simp [h v hv])
  have h2 : List.filter
      (fun v => v.operation_id == opid && v.version_type == "before_merge")
      (records.map (fun r =>
        ({ operation_id := opid, record_id := ridOf r,
           version_type := "before_merge", record_data := r } :
          RecordVersion))) =
      records.map (fun r =>
        ({ operation_id := opid, record_id := ridOf r,
           version_type := "before_merge", record_data := r } :
          RecordVersion)) := by
    apply List.filter_eq_self.2
    intro v hv
    rcases List.mem_map.1 hv with ⟨r, _, rfl⟩
    simp
  have hgb : (("golden" : String) == "before_merge") = false := by decide
  have h3 : List.filter
      (fun (v : RecordVersion) =>
        v.operation_id == opid && v.version_type == "before_merge")
      [{ operation_id := opid, record_id := ridOf golden,
         version_type := "golden", record_data := golden }] = [] := by
    simp [List.filter, hgb]
  rw [h1, h2, h3]
  simp [List.map_map, Function.comp]

theorem undo_merge_success_eq (s : LedgerState) (opid : Nat)
    (uid2 : Option String) (op : MergeOp)
    (hfind : s.operations.find? (fun o => o.operation_id == opid) = some op)
    (hnot : op.is_undone = false)
    (hne : beforeSnapshots s.versions opid ≠ []) :
    undo_merge s opid uid2 =
      (.success opid s.nextOpId op.cluster_id
         (beforeSnapshots s.versions opid).length,
       { s with
         operations := ((s.operations.map (fun (o : MergeOp) =>
             if o.operation_id = opid then { o with is_undone := true }
             else o)) ++
           [({ operation_id := s.nextOpId
               operation_type := "undo"
               user_id := uid2.getD "system"
               cluster_id := op.cluster_id
               record_count := op.record_count
               golden_record_id := none
               is_undone := false
               undone_by_operation_id := none
               notes := some ("Undo of operation " ++ toString opid) } :
             MergeOp)]).map
             (fun (o : MergeOp) => if o.operation_id = opid then
               { o with undone_by_operation_id := some s.nextOpId } else o)
         sourceRecords := restoreSnapshots s.sourceRecords
           (beforeSnapshots s.versions opid)
         nextOpId := s.nextOpId + 1 }) := by
  have hEmpty : (beforeSnapshots s.versions opid).isEmpty = false := by
    rcases he : (beforeSnapshots s.versions opid).isEmpty with _ | _
    · rfl
    · exact absurd (List.isEmpty_iff.1 he) hne
  simp [undo_merge, hfind, hnot, hEmpty]

theorem markUndone_operation_id (opid : Nat) (o : MergeOp) :
    ((if o.operation_id = opid then { o with is_undone := true }
      else o) : MergeOp).operation_id = o.operation_id := by
  split_ifs <;> rfl

theorem linkUndone_operation_id (opid nid : Nat) (o : MergeOp) :
    ((if o.operation_id = opid then
      { o with undone_by_operation_id := some nid }
      else o) : MergeOp).operation_id = o.operation_id := by
  split_ifs <;> rfl

/-- C1: For every recorded merge operation, calling undo on that
operation's id restores every source record's fields to the exact values
captured in that operation's before_merge snapshots (field-by-field, for
all fields other than record_id), and a second undo on the same
operation_id fails with the structured AlreadyUndone result without
changing any record.  The source rows of the intermediate state are
arbitrary (the merge may have overwritten them in any way); the freshness
hypotheses say that the AUTOINCREMENT id of the new operation is not
already present in the ledger, and the Nodup hypotheses that the cluster
records have distinct record ids and well-formed field maps. -/
theorem merge_undo_roundtrip
    (s : LedgerState) (cid : Int) (records : List DataRow)
    (golden : DataRow) (ot : String) (uid notes uid2 : Option String)
    (opid : Nat) (s1 s_mid : LedgerState) (res : UndoResult)
    (s2 : LedgerState)
    (hop : record_merge_operation s cid records golden ot uid notes =
      (opid, s1))
    (hfreshOps : ∀ op ∈ s.operations, op.operation_id ≠ s.nextOpId)
    (hfreshVers : ∀ v ∈ s.versions, v.operation_id ≠ s.nextOpId)
    (hrecne : records ≠ [])
    (hrids : (records.map ridOf).Nodup)
    (hkeys : ∀ r ∈ records, (r.map Prod.fst).Nodup)
    (hmidOps : s_mid.operations = s1.operations)
    (hmidVers : s_mid.versions = s1.versions)
    (hundo : undo_merge s_mid opid uid2 = (res, s2)) :
    res = .success opid s_mid.nextOpId cid records.length ∧
    (∀ r ∈ records, ∀ row ∈ s2.sourceRecords,
      colVal row "record_id" = .vstr (ridOf r) →
      ∀ f v, (f, v) ∈ r → f ≠ "record_id" → colVal row f = v) ∧
    undo_merge s2 opid uid2 = (.failure "Operation already undone", s2) := by
  have hopid : opid = s.nextOpId := (congrArg Prod.fst hop).symm.trans rfl
  subst hopid
  set nop : MergeOp :=
    { operation_id := s.nextOpId
      operation_type := ot
      user_id := uid.getD "system"
      cluster_id := cid
      record_count := records.length
      golden_record_id := some (ridOf golden)
      is_undone := false
      undone_by_operation_id := none
      notes := notes } with hnop
  have hs1 : (record_merge_operation s cid records golden ot uid notes).2 =
      s1 := congrArg Prod.snd hop
  have hops : s_mid.operations = s.operations ++ [nop] := by
    rw [hmidOps, ← hs1]
    rfl
  have hvers : s_mid.versions =
      (s.versions ++ records.map (fun r =>
        ({ operation_id := s.nextOpId, record_id := ridOf r,
           version_type := "before_merge", record_data := r } :
          RecordVersion))) ++
        [{ operation_id := s.nextOpId, record_id := ridOf golden,
           version_type := "golden", record_data := golden }] := by
    rw [hmidVers, ← hs1]
    rfl
  have hl1 : ∀ x ∈ s.operations,
      (fun (o : MergeOp) => o.operation_id == s.nextOpId) x = false :=
    fun x hx => by simpa using hfreshOps x hx
  have hfind : s_mid.operations.find?
      (fun o => o.operation_id == s.nextOpId) = some nop := by
    rw [hops, find?_append_left_none hl1,
      List.find?_cons_of_pos _ (by simp [hnop])]
  have hsnapseq : beforeSnapshots s_mid.versions s.nextOpId =
      records.map (fun r => (ridOf r, r)) := by
    rw [hvers]
    exact beforeSnapshots_merged s.versions s.nextOpId records golden
      hfreshVers
  have hsnapsne : beforeSnapshots s_mid.versions s.nextOpId ≠ [] := by
    rw [hsnapseq]
    intro hh
    exact hrecne (List.map_eq_nil_iff.1 hh)
  have hsucc := undo_merge_success_eq s_mid s.nextOpId uid2 nop hfind
    (by simp [hnop]) hsnapsne
  rw [hundo] at hsucc
  obtain ⟨hres, hs2⟩ := Prod.mk.inj hsucc
  refine ⟨?_, ?_, ?_⟩
  · rw [hres, hsnapseq]
    simp [hnop]
  · intro r hr row hrow hr_id f v hfv hf
    have hrows : s2.sourceRecords =
        s_mid.sourceRecords.map
          (applySnapsToRow (records.map (fun r => (ridOf r, r)))) := by
      rw [hs2]
      show restoreSnapshots s_mid.sourceRecords
        (beforeSnapshots s_mid.versions s.nextOpId) = _
      rw [hsnapseq, restoreSnapshots_eq_map]
    rw [hrows] at hrow
    obtain ⟨row0, hrow0mem, hrow0eq⟩ := List.mem_map.1 hrow
    subst hrow0eq
    rw [applySnapsToRow_rid] at hr_id
    refine applySnapsToRow_lookup _ row0 ?_ ?_ (hkeys r hr) hr_id f v hfv hf
    · simpa [List.map_map, Function.comp] using hrids
    · exact List.mem_map.2 ⟨r, hr, rfl⟩
  · set nop2 : MergeOp :=
      { operation_id := s.nextOpId
        operation_type := ot
        user_id := uid.getD "system"
        cluster_id := cid
        record_count := records.length
        golden_record_id := some (ridOf golden)
        is_undone := true
        undone_by_operation_id := some s_mid.nextOpId
        notes := notes } with hnop2
    have hops2 : s2.operations =
        (((s.operations ++ [nop]).map (fun (o : MergeOp) =>
            if o.operation_id = s.nextOpId then { o with is_undone := true }
            else o)) ++
          [({ operation_id := s_mid.nextOpId
              operation_type := "undo"
              user_id := uid2.getD "system"
              cluster_id := nop.cluster_id
              record_count := nop.record_count
              golden_record_id := none
              is_undone := false
              undone_by_operation_id := none
              notes := some ("Undo of operation " ++ toString s.nextOpId) } :
            MergeOp)]).map
          (fun (o : MergeOp) => if o.operation_id = s.nextOpId then
            { o with undone_by_operation_id := some s_mid.nextOpId }
            else o) := by
      rw [hs2]
      show (((s_mid.operations.map (fun (o : MergeOp) =>
          if o.operation_id = s.nextOpId then { o with is_undone := true }
          else o)) ++ _).map _) = _
      rw [hops]
    have hl2 : ∀ x ∈ (s.operations.map (fun (o : MergeOp) =>
        if o.operation_id = s.nextOpId then { o with is_undone := true }
        else o)).map (fun (o : MergeOp) =>
        if o.operation_id = s.nextOpId then
          { o with undone_by_operation_id := some s_mid.nextOpId } else o),
        (fun (o : MergeOp) => o.operation_id == s.nextOpId) x = false := by
      intro x hx
      rcases List.mem_map.1 hx with ⟨y, hy, rfl⟩
      rcases List.mem_map.1 hy with ⟨o, ho, rfl⟩
      simp only []
      rw [linkUndone_operation_id, markUndone_operation_id]
      simpa using hfreshOps o ho
    have hfind2 : s2.operations.find?
        (fun o => o.operation_id == s.nextOpId) = some nop2 := by
      rw [hops2]
      simp only [List.map_append, List.map_cons, List.map_nil,
        List.append_assoc]
      rw [find?_append_left_none hl2]
      simp only [List.singleton_append]
      rw [List.find?_cons_of_pos _ (by simp [hnop])]
      simp [hnop, hnop2]
    exact undo_merge_alreadyUndone_state hfind2 (by simp [hnop2])

def rowA : DataRow := [("record_id", .vstr "a"), ("name", .vstr "Alice")]

def rowB : DataRow := [("record_id", .vstr "b"), ("name", .vstr "Bob")]

def goldAB : DataRow := [("record_id", .vstr "a"), ("name", .vstr "Alice")]

/-- Ledger state after recording the merge of rowA and rowB (cluster 7),
with the source rows overwritten by the merge. -/
def ledgerMid : LedgerState :=
  { operations := (record_merge_operation ledgerEmpty 7 [rowA, rowB] goldAB
      "auto_merge" none none).2.operations
    versions := (record_merge_operation ledgerEmpty 7 [rowA, rowB] goldAB
      "auto_merge" none none).2.versions
    relationships := []
    sourceRecords :=
      [[("record_id", .vstr "a"), ("name", .vstr "MERGED")],
       [("record_id", .vstr "b"), ("name", .vstr "MERGED")]]
    nextOpId := 2 }

/-- Witness for C1 at a concrete input: undoing operation 1 restores the
overwritten name field of record "a" to its snapshot value "Alice", the
structured success result is returned, and a second undo fails with
AlreadyUndone leaving the state untouched. -/
theorem merge_undo_roundtrip_witness :
    (undo_merge ledgerMid 1 none).1 = UndoResult.success 1 2 7 2 ∧
    colVal (((undo_merge ledgerMid 1 none).2).sourceRecords.getD 0 [])
      "name" = .vstr "Alice" ∧
    undo_merge ((undo_merge ledgerMid 1 none).2) 1 none =
      (.failure "Operation already undone",
       (undo_merge ledgerMid 1 none).2) := by
  have h := merge_undo_roundtrip ledgerEmpty 7 [rowA, rowB] goldAB
    "auto_merge" none none none 1
    (record_merge_operation ledgerEmpty 7 [rowA, rowB] goldAB
      "auto_merge" none none).2
    ledgerMid (undo_merge ledgerMid 1 none).1 (undo_merge ledgerMid 1 none).2
    rfl (by simp [ledgerEmpty]) (by simp [ledgerEmpty]) (by decide)
    (by decide) (by decide) rfl rfl rfl
  refine ⟨h.1, ?_, h.2.2⟩
  exact h.2.1 rowA (by decide)
    (((undo_merge ledgerMid 1 none).2).sourceRecords.getD 0 []) (by decide)
    (by decide) "name" (.vstr "Alice") (by decide) (by decide)

/-! ### Adequacy of the clustering fuel

`sameCluster` bounds the search depth by the length of the node list;
the following development shows this fuel is always sufficient:
`sameCluster` decides exactly the reflexive-transitive closure of the
adjacency relation, i.e. membership in the same connected component. -/

theorem mem_nodesOf_of_mem_pairs {pairs : List (Nat × Nat)}
    {p : Nat × Nat} (h : p ∈ pairs) :
    p.1 ∈ nodesOf pairs ∧ p.2 ∈ nodesOf pairs := by
  induction pairs with
  | nil => cases h
  | cons q rest ih =>
    rcases List.mem_cons.1 h with rfl | h2
    · exact ⟨List.mem_cons_self _ _,
        List.mem_cons_of_mem _ (List.mem_cons_self _ _)⟩
    · obtain ⟨h1, h2b⟩ := ih h2
      exact ⟨List.mem_cons_of_mem _ (List.mem_cons_of_mem _ h1),
        List.mem_cons_of_mem _ (List.mem_cons_of_mem _ h2b)⟩

theorem adjB_mem_nodes {pairs : List (Nat × Nat)} {x z : Nat}
    (h : adjB pairs x z = true) :
    x ∈ nodesOf pairs ∧ z ∈ nodesOf pairs := by
  unfold adjB at h
  rw [List.any_eq_true] at h
  obtain ⟨p, hp, hcond⟩ := h
  simp only [Bool.or_eq_true, Bool.and_eq_true, beq_iff_eq] at hcond
  obtain ⟨h1, h2⟩ := mem_nodesOf_of_mem_pairs hp
  rcases hcond with ⟨ha, hb⟩ | ⟨ha, hb⟩
  · exact ⟨ha ▸ h1, hb ▸ h2⟩
  · exact ⟨hb ▸ h2, ha ▸ h1⟩

theorem reachB_refl (pairs : List (Nat × Nat)) (fuel x : Nat) :
    reachB pairs fuel x x = true := by
  cases fuel <;> simp [reachB]

theorem reachB_iff_chain (pairs : List (Nat × Nat)) :
    ∀ (n x y : Nat), reachB pairs n x y = true ↔
      ∃ l : List Nat, l.length ≤ n ∧
        List.Chain (fun a b => adjB pairs a b = true) x l ∧
        l.getLastD x = y := by
  intro n
  induction n with
  | zero =>
    intro x y
    constructor
    · intro h
      have hxy : x = y := by simpa [reachB] using h
      exact ⟨[], by simp, List.Chain.nil, hxy⟩
    · rintro ⟨l, hl, _, hlast⟩
      have hnil : l = [] := List.length_eq_zero.1 (Nat.le_zero.1 hl)
      subst hnil
      have hxy : x = y := hlast
      simp [reachB, hxy]
  | succ n ih =>
    intro x y
    constructor
    · intro h
      rw [show reachB pairs (n + 1) x y =
          (x == y || (nodesOf pairs).any
            fun z => adjB pairs x z && reachB pairs n z y) from rfl,
        Bool.or_eq_true, List.any_eq_true] at h
      rcases h with hxy | ⟨z, _, hcond⟩
      · exact ⟨[], by simp, List.Chain.nil, by simpa using hxy⟩
      · rw [Bool.and_eq_true] at hcond
        obtain ⟨l, hl, hchain, hlast⟩ := (ih z y).1 hcond.2
        refine ⟨z :: l, by simpa using Nat.succ_le_succ hl,
          List.chain_cons.2 ⟨hcond.1, hchain⟩, ?_⟩
        rw [List.getLastD_cons]
        exact hlast
    · rintro ⟨l, hl, hchain, hlast⟩
      match l, hl, hchain, hlast with
      | [], _, _, hlast =>
        have hxy : x = y := hlast
        simp [reachB, hxy]
      | z :: l2, hl, hchain, hlast =>
        obtain ⟨hadj, hchain2⟩ := List.chain_cons.1 hchain
        have hlast2 : l2.getLastD z = y := by
          rw [List.getLastD_cons] at hlast
          exact hlast
        have hl2 : l2.length ≤ n :=
          Nat.le_of_succ_le_succ (by simpa using hl)
        have hrz : reachB pairs n z y = true :=
          (ih z y).2 ⟨l2, hl2, hchain2, hlast2⟩
        show (x == y || (nodesOf pairs).any
          fun w => adjB pairs x w && reachB pairs n w y) = true
        rw [Bool.or_eq_true, List.any_eq_true]
        exact Or.inr ⟨z, (adjB_mem_nodes hadj).2,
          by rw [Bool.and_eq_true]; exact ⟨hadj, hrz⟩⟩

theorem getLastD_append_cons :
    ∀ (s : List Nat) (x : Nat) (t : List Nat) (d : Nat),
      (s ++ x :: t).getLastD d = t.getLastD x := by
  intro s
  induction s with
  | nil => intro x t d; exact List.getLastD_cons d x t
  | cons s0 rest ih =>
    intro x t d
    show (s0 :: (rest ++ x :: t)).getLastD d = t.getLastD x
    rw [List.getLastD_cons]
    exact ih x t s0

/-- Any walk can be replaced by a duplicate-free walk over a subset of
its vertices, with the same endpoints. -/
theorem chain_dedup (adj : Nat → Nat → Prop) :
    ∀ (n : Nat) (l : List Nat) (x : Nat), l.length ≤ n →
      List.Chain adj x l →
      ∃ l2 : List Nat, l2.length ≤ l.length ∧ (∀ a ∈ l2, a ∈ l) ∧
        List.Chain adj x l2 ∧ l2.getLastD x = l.getLastD x ∧
        (x :: l2).Nodup := by
  intro n
  induction n with
  | zero =>
    intro l x hl _
    have hnil : l = [] := List.length_eq_zero.1 (Nat.le_zero.1 hl)
    subst hnil
    exact ⟨[], by simp, by simp, List.Chain.nil, rfl, by simp⟩
  | succ n ih =>
    intro l x hl hchain
    by_cases hx : x ∈ l
    · obtain ⟨s, t, rfl⟩ := List.append_of_mem hx
      have hchain2 : List.Chain adj x t := (List.chain_split.1 hchain).2
      have hlt : t.length ≤ n := by
        have hlen : (s ++ x :: t).length = s.length + (t.length + 1) := by
          simp
        omega
      obtain ⟨l2, hlen, hsub, hch, hlast, hnd⟩ := ih t x hlt hchain2
      refine ⟨l2, ?_, ?_, hch, ?_, hnd⟩
      · have : (s ++ x :: t).length = s.length + (t.length + 1) := by simp
        omega
      · intro a ha
        have := hsub a ha
        simp only [List.mem_append, List.mem_cons]
        exact Or.inr (Or.inr this)
      · rw [getLastD_append_cons]
        exact hlast
    · cases l with
      | nil => exact ⟨[], by simp, by simp, List.Chain.nil, rfl, by simp⟩
      | cons z l2 =>
        obtain ⟨hadj, hchain2⟩ := List.chain_cons.1 hchain
        have hl2 : l2.length ≤ n :=
          Nat.le_of_succ_le_succ (by simpa using hl)
        obtain ⟨l3, hlen, hsub, hch, hlast, hnd⟩ := ih l2 z hl2 hchain2
        refine ⟨z :: l3, by simpa using Nat.succ_le_succ hlen, ?_,
          List.chain_cons.2 ⟨hadj, hch⟩, ?_, ?_⟩
        · intro a ha
          rcases List.mem_cons.1 ha with rfl | h2
          · exact List.mem_cons_self _ _
          · exact List.mem_cons_of_mem _ (hsub a h2)
        · rw [List.getLastD_cons, List.getLastD_cons]
          exact hlast
        · rw [List.nodup_cons]
          refine ⟨?_, hnd⟩
          intro hmem
          apply hx
          rcases List.mem_cons.1 hmem with rfl | h2
          · exact List.mem_cons_self _ _
          · exact List.mem_cons_of_mem _ (hsub x h2)

theorem chain_mem_nodes {pairs : List (Nat × Nat)} :
    ∀ (l : List Nat) (x : Nat),
      List.Chain (fun a b => adjB pairs a b = true) x l → l ≠ [] →
      ∀ a ∈ x :: l, a ∈ nodesOf pairs := by
  intro l
  induction l with
  | nil => intro x _ h; exact absurd rfl h
  | cons z l2 ih =>
    intro x hchain _ a ha
    obtain ⟨hadj, hchain2⟩ := List.chain_cons.1 hchain
    rcases List.mem_cons.1 ha with rfl | ha2
    · exact (adjB_mem_nodes hadj).1
    · rcases List.mem_cons.1 ha2 with rfl | ha3
      · exact (adjB_mem_nodes hadj).2
      · have hne : l2 ≠ [] := by
          intro hh
          rw [hh] at ha3
          cases ha3
        exact ih z hchain2 hne a (List.mem_cons_of_mem _ ha3)

theorem nodup_length_le_of_mem {l1 l2 : List Nat} (h : l1.Nodup)
    (hs : ∀ a ∈ l1, a ∈ l2) : l1.length ≤ l2.length := by
  have h1 := List.toFinset_card_of_nodup h
  have h2 : l1.toFinset ⊆ l2.toFinset := by
    intro a ha
    simp only [List.mem_toFinset] at ha ⊢
    exact hs a ha
  have h3 := Finset.card_le_card h2
  have h4 := List.toFinset_card_le l2
  omega

theorem chain_reflTransGen {adj : Nat → Nat → Prop} :
    ∀ (l : List Nat) (x : Nat), List.Chain adj x l →
      Relation.ReflTransGen adj x (l.getLastD x) := by
  intro l
  induction l with
  | nil => intro x _; exact Relation.ReflTransGen.refl
  | cons z l2 ih =>
    intro x hchain
    obtain ⟨hadj, hchain2⟩ := List.chain_cons.1 hchain
    rw [List.getLastD_cons]
    exact Relation.ReflTransGen.head hadj (ih z hchain2)

theorem reflTransGen_chain {adj : Nat → Nat → Prop} {x y : Nat}
    (h : Relation.ReflTransGen adj x y) :
    ∃ l : List Nat, List.Chain adj x l ∧ l.getLastD x = y := by
  induction h using Relation.ReflTransGen.head_induction_on with
  | refl => exact ⟨[], List.Chain.nil, rfl⟩
  | head hadj _ ih =>
    obtain ⟨l, hch, hlast⟩ := ih
    refine ⟨_ :: l, List.chain_cons.2 ⟨hadj, hch⟩, ?_⟩
    rw [List.getLastD_cons]
    exact hlast

/-- The fuel used by sameCluster is sufficient: sameCluster decides
exactly connectivity in the adjacency graph (connected components). -/
theorem sameCluster_iff_reflTransGen (pairs : List (Nat × Nat))
    (x y : Nat) :
    sameCluster pairs x y = true ↔
      Relation.ReflTransGen (fun a b => adjB pairs a b = true) x y := by
  constructor
  · intro h
    obtain ⟨l, _, hchain, hlast⟩ :=
      (reachB_iff_chain pairs (nodesOf pairs).length x y).1 h
    exact hlast ▸ chain_reflTransGen l x hchain
  · intro h
    obtain ⟨l, hch, hlast⟩ := reflTransGen_chain h
    obtain ⟨l2, _, _, hch2, hlast2, hnd⟩ :=
      chain_dedup _ l.length l x le_rfl hch
    show reachB pairs (nodesOf pairs).length x y = true
    refine (reachB_iff_chain pairs (nodesOf pairs).length x y).2
      ⟨l2, ?_, hch2, hlast2.trans hlast⟩
    cases l2 with
    | nil => simp
    | cons z l3 =>
      have hmem := chain_mem_nodes (z :: l3) x hch2 (by simp)
      have hlen := nodup_length_le_of_mem hnd hmem
      simp only [List.length_cons] at hlen ⊢
      omega

end BADedup
